import Mathlib

/-!
# Verification of the ticket booking engine

A shallow embedding of the booking backend (`src/backend/index.ts`, schema in
`src/backend/schema.ts` / `migrations/01_schema-setup.sql`, seed data in
`migrations/02_schema_seed.sql`), together with proofs and refutations of the
specification's claims about it.

Modelling conventions:
* The three Postgres relations become lists of records; `NUMERIC(10,2)` values
  are exact rationals; `INTEGER` columns are `ℤ` guarded by the int4 range.
* JavaScript number arithmetic (`parseFloat`, `*`, `+=`, `toFixed(2)`) is
  IEEE-754 binary64: modelled exactly as dyadic rationals produced by
  round-to-nearest, ties-to-even at 53 significand bits (`roundD`).  Overflow
  and subnormals do not arise for the values reachable here.
* Exact rational operations are spelled with the helpers `qadd`, `qmul`,
  `qneg`, `qsub` (proved equal to `+`, `*`, `-` below); this keeps every
  definition evaluable by `decide` on concrete inputs.
* A failed SQL statement (int4 parse failure on a non-integer or out-of-range
  parameter, numeric(10,2) overflow, varchar overflow) throws, is caught by the
  handler's catch block, and rolls the transaction back; the model returns the
  500 outcome with the original database.
* `Math.random()` in `simulatePayment` and an unexpected infrastructure fault
  inside the transaction are injected through `Env`.
* Order ids are `uuid` in the source; the model uses a fresh counter, which
  preserves exactly what the claims need (freshness of the new id).
-/

set_option maxRecDepth 100000

namespace Booking

/-! ## Exact rational helpers (evaluable spellings of `+`, `*`, `-` on `ℚ`) -/

def qadd (a b : ℚ) : ℚ := Rat.divInt (a.num * b.den + b.num * a.den) ((a.den : ℤ) * b.den)

def qmul (a b : ℚ) : ℚ := Rat.divInt (a.num * b.num) ((a.den : ℤ) * b.den)

def qneg (a : ℚ) : ℚ := Rat.divInt (-a.num) a.den

def qsub (a b : ℚ) : ℚ := qadd a (qneg b)

/-- Base-2 logarithm (fuel-driven structural recursion). -/
def log2F : ℕ → ℕ → ℕ
  | 0, _ => 0
  | fuel + 1, n => if n ≤ 1 then 0 else log2F fuel (n / 2) + 1

/-- Base-2 logarithm of a natural number: greatest `k` with `2^k ≤ n`
(and `0` for `n ≤ 1`). -/
def nlog2 (n : ℕ) : ℕ := log2F n n

/-! ## Data model (schema.ts / 01_schema-setup.sql) -/

/-- A row of the `tickets` table. -/
structure Ticket where
  tier : String
  priceUsd : ℚ
  quantityAvailable : ℤ
  totalQuantity : ℤ
deriving DecidableEq, Repr

/-- A row of the `orders` table. -/
structure Order where
  id : ℕ
  userId : String
  totalAmount : ℚ
  status : String
deriving DecidableEq, Repr

/-- A row of the `order_items` table. -/
structure OrderItem where
  orderId : ℕ
  ticketTier : String
  quantity : ℤ
  priceAtPurchase : ℚ
deriving DecidableEq, Repr

/-- The durable database state. -/
structure DB where
  tickets : List Ticket
  orders : List Order
  orderItems : List OrderItem
  nextOrderId : ℕ
deriving DecidableEq, Repr

/-- A cart line of the booking request body (`CartItem` in index.ts).
`quantity` is a JavaScript number, i.e. an exact binary64 value. -/
structure CartItem where
  tier : String
  quantity : ℚ
deriving DecidableEq, Repr

/-- The booking request body (`BookingRequest` in index.ts). -/
structure BookingRequest where
  userId : String
  cartItems : List CartItem
deriving DecidableEq, Repr

/-- Injected environment: the `Math.random() < 0.95` outcome used by
`simulatePayment` for non-test users, and whether an unexpected
infrastructure fault is thrown inside the transaction. -/
structure Env where
  payRandomOk : String → ℚ → Bool
  fault : Bool

/-! ## IEEE-754 binary64 arithmetic over exact rationals -/

/-- `2 ^ e` as a rational, for an integer exponent. -/
def zpow2 : ℤ → ℚ
  | .ofNat n => Rat.divInt ((2 : ℤ) ^ n) 1
  | .negSucc n => Rat.divInt 1 ((2 : ℤ) ^ (n + 1))

/-- Binary exponent of a positive rational: the greatest `e` with `2^e ≤ q`. -/
def flog2 (q : ℚ) : ℤ :=
  let e0 : ℤ := (nlog2 q.num.natAbs : ℤ) - (nlog2 q.den : ℤ)
  if zpow2 e0 ≤ q then e0 else e0 - 1

/-- Round a positive rational to the nearest 53-bit dyadic (ties to even). -/
def roundPos (q : ℚ) : ℚ :=
  let e := flog2 q
  let scaled := qmul q (zpow2 (52 - e))
  let fl := Rat.floor scaled
  let frac := qsub scaled (Rat.divInt fl 1)
  let r : ℤ :=
    if frac < Rat.divInt 1 2 then fl
    else if Rat.divInt 1 2 < frac then fl + 1
    else if fl % 2 = 0 then fl else fl + 1
  qmul (Rat.divInt r 1) (zpow2 (e - 52))

/-- Round a rational to the nearest binary64 value (round to nearest,
ties to even).  This is the value semantics of every JavaScript number
operation; overflow to `Infinity` does not arise for reachable values. -/
def roundD (q : ℚ) : ℚ :=
  if q = 0 then 0 else if 0 < q then roundPos q else qneg (roundPos (qneg q))

/-- JavaScript `+` on numbers. -/
def fadd (a b : ℚ) : ℚ := roundD (qadd a b)

/-- JavaScript `*` on numbers. -/
def fmul (a b : ℚ) : ℚ := roundD (qmul a b)

/-- ECMAScript `Number.prototype.toFixed(2)` for a nonnegative value:
the integer `n` minimising `|n / 100 - x|`, ties resolved to the larger `n`. -/
def toFixed2Pos (x : ℚ) : ℚ :=
  let n := Rat.floor (qmul x 100)
  if qsub (qmul x 100) (Rat.divInt n 1) < Rat.divInt 1 2 then Rat.divInt n 100
  else Rat.divInt (n + 1) 100

/-- ECMAScript `toFixed(2)`, as the rational value the produced string denotes
(a negative value formats as `-` followed by the formatted absolute value). -/
def toFixed2 (x : ℚ) : ℚ :=
  if x < 0 then qneg (toFixed2Pos (qneg x)) else toFixed2Pos x

/-! ## Postgres column guards -/

def int4Min : ℤ := -(2 ^ 31)

def int4Max : ℤ := 2 ^ 31 - 1

/-- A parameter bound to an `INTEGER` column must be an integer in int4 range,
else the statement errors (`invalid input syntax` / `integer out of range`). -/
def isInt4 (q : ℚ) : Bool :=
  q.den == 1 && decide (int4Min ≤ q.num) && decide (q.num ≤ int4Max)

/-- A value stored into a `NUMERIC(10,2)` column must have at most two decimal
places and at most eight digits before the point. -/
def isNumeric10x2 (q : ℚ) : Bool :=
  (qmul q 100).den == 1 && decide ((qmul q 100).num.natAbs ≤ 9999999999)

/-! ## The booking endpoint (index.ts, POST /api/book) -/

/-- `SELECT ... FROM tickets WHERE tier = $1` (tier is UNIQUE). -/
def findTicket (ts : List Ticket) (tier : String) : Option Ticket :=
  ts.find? (fun t => t.tier == tier)

/-- The payment stub (index.ts, `simulatePayment`): always succeeds when the
user id starts with `"test-user"` (JavaScript `String.prototype.startsWith`,
i.e. character-prefix), otherwise follows the injected
`Math.random() < 0.95` outcome. -/
def simulatePayment (env : Env) (userId : String) (amount : ℚ) : Bool :=
  if "test-user".data.isPrefixOf userId.data then true
  else env.payRandomOk userId amount

/-- The two failure outcomes of the lock-and-validate loop. -/
inductive LockErr where
  | unknownTier (tier : String)
  | insufficientStock (tier : String) (requested : ℚ) (available : ℤ)
deriving DecidableEq, Repr

/-- An entry of the `orderItems` array accumulated during the loop
(index.ts lines 197-201): tier and quantity from the request, price snapshot
from the locked read. -/
structure PendingItem where
  tier : String
  quantity : ℚ
  priceAtPurchase : ℚ
deriving DecidableEq, Repr

/-- Step 2 of the booking flow (index.ts lines 158-202): iterate the cart in
request order; for each line issue `SELECT ... FOR UPDATE`, abort on a missing
tier or on `quantity > available`, otherwise accumulate
`totalAmount += parseFloat(price_usd) * quantity` in binary64 and record the
pending order item.  Returns the float total, the pending items, and the list
of tiers successfully locked, in acquisition order. -/
def lockAndValidate (ts : List Ticket) :
    List CartItem → ℚ → Except (LockErr × List String) (ℚ × List PendingItem × List String)
  | [], total => .ok (total, [], [])
  | item :: rest, total =>
    match findTicket ts item.tier with
    | none => .error (.unknownTier item.tier, [])
    | some t =>
      if Rat.divInt t.quantityAvailable 1 < item.quantity then
        .error (.insufficientStock item.tier item.quantity t.quantityAvailable, [t.tier])
      else
        match lockAndValidate ts rest (fadd total (fmul (roundD t.priceUsd) item.quantity)) with
        | .error (r, ls) => .error (r, t.tier :: ls)
        | .ok (tot, pend, ls) =>
          .ok (tot, ⟨item.tier, item.quantity, t.priceUsd⟩ :: pend, t.tier :: ls)

/-- `UPDATE tickets SET quantity_available = quantity_available - $2 WHERE tier = $1`. -/
def updateTickets (ts : List Ticket) (tier : String) (q : ℤ) : List Ticket :=
  ts.map fun t =>
    if t.tier == tier then { t with quantityAvailable := t.quantityAvailable - q } else t

/-- The int4 subtraction in the inventory UPDATE must not overflow for any
matched row, else the statement errors. -/
def availUpdateOk (ts : List Ticket) (tier : String) (q : ℤ) : Bool :=
  ts.all fun t =>
    t.tier != tier ||
      (decide (int4Min ≤ t.quantityAvailable - q) && decide (t.quantityAvailable - q ≤ int4Max))

/-- The `INSERT INTO order_items` parameters must satisfy the column types:
quantity is int4, tier fits `varchar(50)`, price fits `numeric(10,2)`. -/
def lineInsertOk (it : PendingItem) : Bool :=
  isInt4 it.quantity && decide (it.tier.length ≤ 50) && isNumeric10x2 it.priceAtPurchase

/-- Step 5 of the booking flow (index.ts lines 230-253): per pending item,
insert the order line then decrement the inventory row.  `none` models a
statement error (caught and rolled back by the handler). -/
def writeItems (oid : ℕ) : List Ticket → List PendingItem → Option (List Ticket × List OrderItem)
  | ts, [] => some (ts, [])
  | ts, it :: rest =>
    if lineInsertOk it then
      if availUpdateOk ts it.tier it.quantity.num then
        match writeItems oid (updateTickets ts it.tier it.quantity.num) rest with
        | none => none
        | some (ts2, lines) => some (ts2, ⟨oid, it.tier, it.quantity.num, it.priceAtPurchase⟩ :: lines)
      else none
    else none

/-- The result payload of one `POST /api/book` call. -/
inductive BookResult where
  | success (orderId : ℕ) (totalAmount : ℚ)
  | invalidInput
  | unknownTier (tier : String)
  | insufficientStock (tier : String) (requested : ℚ) (available : ℤ)
  | paymentFailed
  | infraError
deriving DecidableEq, Repr

/-- The outcome of one `POST /api/book` call: the result payload, the HTTP
status sent, the database after commit or rollback, and the tiers locked
(in acquisition order) during the call. -/
structure BookOutcome where
  result : BookResult
  status : ℕ
  db : DB
  locks : List String
deriving DecidableEq, Repr

/-- The handler of `POST /api/book` (index.ts lines 133-285).
Body validation happens before the transaction; every failure path returns
the original database (ROLLBACK); commit replaces the inventory, appends the
PAID order (with `totalAmount.toFixed(2)`) and its lines. -/
def book (env : Env) (db : DB) (req : BookingRequest) : BookOutcome :=
  if req.userId = "" ∨ req.cartItems = [] then
    ⟨.invalidInput, 400, db, []⟩
  else if env.fault then
    ⟨.infraError, 500, db, []⟩
  else
    match lockAndValidate db.tickets req.cartItems 0 with
    | .error (.unknownTier t, ls) => ⟨.unknownTier t, 400, db, ls⟩
    | .error (.insufficientStock t q a, ls) => ⟨.insufficientStock t q a, 409, db, ls⟩
    | .ok (total, pending, locks) =>
      if simulatePayment env req.userId total then
        if req.userId.length ≤ 255 ∧ isNumeric10x2 (toFixed2 total) = true then
          match writeItems db.nextOrderId db.tickets pending with
          | some (ts2, lines) =>
            ⟨.success db.nextOrderId (toFixed2 total), 201,
              ⟨ts2, db.orders ++ [⟨db.nextOrderId, req.userId, toFixed2 total, "PAID"⟩],
                db.orderItems ++ lines, db.nextOrderId + 1⟩, locks⟩
          | none => ⟨.infraError, 500, db, locks⟩
        else ⟨.infraError, 500, db, locks⟩
      else ⟨.paymentFailed, 400, db, locks⟩

/-- The status-code table of the handler (the `res.status(...)` calls). -/
def toStatus : BookResult → ℕ
  | .success _ _ => 201
  | .invalidInput => 400
  | .unknownTier _ => 400
  | .insufficientStock _ _ _ => 409
  | .paymentFailed => 400
  | .infraError => 500

/-! ## Seed state (migrations/02_schema_seed.sql) and reachability -/

def seedTickets : List Ticket :=
  [⟨"VIP", 100, 10, 10⟩, ⟨"FRONT_ROW", 50, 50, 50⟩, ⟨"GA", 10, 200, 200⟩]

def seedDB : DB := ⟨seedTickets, [], [], 0⟩

/-- States reachable from the seeded inventory by any sequence of book calls. -/
inductive Reachable : DB → Prop where
  | seed : Reachable seedDB
  | step (env : Env) (req : BookingRequest) {db : DB} :
      Reachable db → Reachable (book env db req).db

/-- An external catalog-price edit: updates `tickets.price_usd` only. -/
def setPrice (db : DB) (tier : String) (p : ℚ) : DB :=
  { db with tickets := db.tickets.map fun t =>
      if t.tier == tier then { t with priceUsd := p } else t }

/-! ## Derived observations used by the claims -/

/-- Sum of `quantity` over order lines of a tier that belong to PAID orders. -/
def paidQtySum (db : DB) (tier : String) : ℤ :=
  ((db.orderItems.filter fun li =>
      li.ticketTier == tier &&
        db.orders.any fun o => o.id == li.orderId && o.status == "PAID").map
    (fun li => li.quantity)).sum

/-- Sum of `quantity × price_at_purchase` over the lines of one order. -/
def lineSum (db : DB) (oid : ℕ) : ℚ :=
  ((db.orderItems.filter fun li => li.orderId == oid).map
    (fun li => (li.quantity : ℚ) * li.priceAtPurchase)).sum

/-- The binary64 total the handler computes for a cart (the amount passed to
the payment gate), when validation reaches the payment step. -/
def floatTotalOf (db : DB) (cart : List CartItem) : Option ℚ :=
  match lockAndValidate db.tickets cart 0 with
  | .ok (t, _, _) => some t
  | .error _ => none

/-- The exact decimal total `Σ qty × unitPrice` of a cart, as the
specification words it (prices looked up in the catalog). -/
def specExactTotal (ts : List Ticket) (cart : List CartItem) : ℚ :=
  (cart.map fun item =>
    ((findTicket ts item.tier).map (fun t => t.priceUsd)).getD 0 * item.quantity).sum

/-- The binary64 accumulation `totalAmount += parseFloat(price) * qty` over
pending items, as a fold (used to reason about `lockAndValidate`). -/
def floatFold (acc : ℚ) (pend : List PendingItem) : ℚ :=
  pend.foldl (fun a it => fadd a (fmul (roundD it.priceAtPurchase) it.quantity)) acc

/-- The exact rational value `Σ qty × priceAtPurchase` of the pending items. -/
def exactSumP (pend : List PendingItem) : ℚ :=
  (pend.map fun it => it.quantity * it.priceAtPurchase).sum

/-- Sum of line quantities of one tier. -/
def tierSum (lines : List OrderItem) (tier : String) : ℤ :=
  ((lines.filter fun li => li.ticketTier == tier).map (fun li => li.quantity)).sum

/-- `Σ price × available` over the inventory: the potential used to bound the
running total of a committed booking. -/
def phi (ts : List Ticket) : ℚ :=
  (ts.map fun t => t.priceUsd * (t.quantityAvailable : ℚ)).sum

/-- The int4 range constraint on a stored `quantity_available`. -/
def availInt4 (t : Ticket) : Prop :=
  int4Min ≤ t.quantityAvailable ∧ t.quantityAvailable ≤ int4Max

/-- Row `t` agrees with seed row `s` except for `quantity_available`, which
stays in int4 range. -/
def TicketShape (s t : Ticket) : Prop :=
  t.tier = s.tier ∧ t.priceUsd = s.priceUsd ∧ t.totalQuantity = s.totalQuantity ∧ availInt4 t

/-- The state invariant carried through reachability. -/
structure Inv (db : DB) : Prop where
  shape : List.Forall₂ TicketShape seedTickets db.tickets
  conserve : ∀ t ∈ db.tickets, t.totalQuantity - t.quantityAvailable = paidQtySum db t.tier
  ordersPaid : ∀ o ∈ db.orders,
    o.id < db.nextOrderId ∧ o.status = "PAID" ∧ o.totalAmount = lineSum db o.id
  linesRef : ∀ li ∈ db.orderItems,
    li.orderId < db.nextOrderId ∧ ∃ o ∈ db.orders, o.id = li.orderId ∧ o.status = "PAID"

/-- Whether a booking result is the success payload. -/
def isSuccess : BookResult → Bool
  | .success _ _ => true
  | _ => false

/-- A benign environment: the random payment draw succeeds, no
infrastructure fault. -/
def envOk : Env := ⟨fun _ _ => true, false⟩

/-- An environment whose `Math.random()` draw declines every non-test
payment; still no infrastructure fault. -/
def envFail : Env := ⟨fun _ _ => false, false⟩

/-! ## Exact-rational bridge lemmas -/

theorem ratfloor_eq (q : ℚ) : Rat.floor q = ⌊q⌋ :=
  (Rat.floor_def' q).trans Rat.floor_def.symm

theorem qadd_eq (a b : ℚ) : qadd a b = a + b := by
  rw [qadd]
  conv_rhs => rw [← Rat.num_divInt_den a, ← Rat.num_divInt_den b]
  rw [Rat.divInt_add_divInt _ _ (Int.natCast_ne_zero.mpr a.den_nz)
    (Int.natCast_ne_zero.mpr b.den_nz)]

theorem qmul_eq (a b : ℚ) : qmul a b = a * b := by
  rw [qmul]
  conv_rhs => rw [← Rat.num_divInt_den a, ← Rat.num_divInt_den b]
  rw [Rat.divInt_mul_divInt']

theorem qneg_eq (a : ℚ) : qneg a = -a := by
  rw [qneg]
  conv_rhs => rw [← Rat.num_divInt_den a]
  rw [Rat.neg_divInt]

theorem qsub_eq (a b : ℚ) : qsub a b = a - b := by
  rw [qsub, qadd_eq, qneg_eq, sub_eq_add_neg]

theorem divInt_one_eq (n : ℤ) : Rat.divInt n 1 = (n : ℚ) := Rat.divInt_one n

theorem zpow2_eq (e : ℤ) : zpow2 e = (2 : ℚ) ^ e := by
  cases e with
  | ofNat n =>
    rw [zpow2, divInt_one_eq, Int.ofNat_eq_coe, zpow_natCast]
    push_cast
    ring
  | negSucc n =>
    rw [zpow2, Rat.divInt_eq_div, zpow_negSucc]
    push_cast
    rw [one_div]

theorem log2F_spec : ∀ fuel n, 1 ≤ n → n ≤ fuel →
    2 ^ log2F fuel n ≤ n ∧ n < 2 ^ (log2F fuel n + 1) := by
  intro fuel
  induction fuel with
  | zero => intro n h1 h2; omega
  | succ fuel ih =>
    intro n h1 h2
    rw [log2F]
    by_cases hn : n ≤ 1
    · simp only [hn, if_true]
      constructor
      · simpa using h1
      · omega
    · simp only [hn, if_false]
      have h2' : n / 2 ≤ fuel := by omega
      have h1' : 1 ≤ n / 2 := by omega
      obtain ⟨hlo, hhi⟩ := ih (n / 2) h1' h2'
      constructor
      · calc 2 ^ (log2F fuel (n / 2) + 1) = 2 * 2 ^ log2F fuel (n / 2) := by ring
        _ ≤ 2 * (n / 2) := by omega
        _ ≤ n := by omega
      · have : n < 2 * (2 ^ (log2F fuel (n / 2) + 1)) := by omega
        calc n < 2 * 2 ^ (log2F fuel (n / 2) + 1) := this
        _ = 2 ^ (log2F fuel (n / 2) + 1 + 1) := by ring

theorem nlog2_spec (n : ℕ) (h : 1 ≤ n) : 2 ^ nlog2 n ≤ n ∧ n < 2 ^ (nlog2 n + 1) :=
  log2F_spec n n h le_rfl

theorem flog2_spec (q : ℚ) (hq : 0 < q) :
    (2 : ℚ) ^ flog2 q ≤ q ∧ q < (2 : ℚ) ^ (flog2 q + 1) := by
  have hnum : 0 < q.num := Rat.num_pos.mpr hq
  have hna : 1 ≤ q.num.natAbs := by omega
  have hden : 1 ≤ q.den := q.pos
  obtain ⟨ha1, ha2⟩ := nlog2_spec q.num.natAbs hna
  obtain ⟨hb1, hb2⟩ := nlog2_spec q.den hden
  have hdenq : (0 : ℚ) < (q.den : ℚ) := by positivity
  have hkey : q * (q.den : ℚ) = (q.num : ℚ) := by
    have h := Rat.num_div_den q
    have hne : (q.den : ℚ) ≠ 0 := ne_of_gt (by positivity)
    calc q * (q.den : ℚ) = (q.num : ℚ) / (q.den : ℚ) * (q.den : ℚ) := by rw [h]
    _ = (q.num : ℚ) := div_mul_cancel₀ _ hne
  have hnumq : (q.num : ℚ) = ((q.num.natAbs : ℕ) : ℚ) := by
    rw [Int.cast_natAbs]
    simp [abs_of_pos, hnum]
  set a := nlog2 q.num.natAbs with ha
  set b := nlog2 q.den with hb
  -- upper bound: q < 2 ^ ((a + 1 : ℤ) - b)
  have hup : q < (2 : ℚ) ^ ((a : ℤ) + 1 - (b : ℤ)) := by
    rw [zpow_sub₀ (two_ne_zero), lt_div_iff₀ (by positivity)]
    calc q * (2 : ℚ) ^ (b : ℤ) ≤ q * (q.den : ℚ) := by
          apply mul_le_mul_of_nonneg_left _ hq.le
          rw [zpow_natCast]
          exact_mod_cast hb1
    _ = (q.num : ℚ) := hkey
    _ < (2 : ℚ) ^ ((a : ℤ) + 1) := by
          rw [hnumq]
          have : ((a : ℤ) + 1) = ((a + 1 : ℕ) : ℤ) := by push_cast; ring
          rw [this, zpow_natCast]
          exact_mod_cast ha2
  -- lower bound: 2 ^ ((a : ℤ) - b - 1) < q
  have hlo : (2 : ℚ) ^ ((a : ℤ) - (b : ℤ) - 1) < q := by
    have h1 : (2 : ℚ) ^ ((a : ℤ) - (b : ℤ) - 1) = (2 : ℚ) ^ (a : ℤ) / (2 : ℚ) ^ ((b : ℤ) + 1) := by
      rw [← zpow_sub₀ (two_ne_zero)]
      ring_nf
    rw [h1, div_lt_iff₀ (by positivity)]
    calc (2 : ℚ) ^ (a : ℤ) ≤ (q.num : ℚ) := by
          rw [hnumq]
          rw [zpow_natCast]
          exact_mod_cast ha1
    _ = q * (q.den : ℚ) := hkey.symm
    _ < q * (2 : ℚ) ^ ((b : ℤ) + 1) := by
          apply mul_lt_mul_of_pos_left _ hq
          have : ((b : ℤ) + 1) = ((b + 1 : ℕ) : ℤ) := by push_cast; ring
          rw [this, zpow_natCast]
          exact_mod_cast hb2
  rw [flog2]
  simp only [← ha, ← hb]
  by_cases hc : zpow2 ((a : ℤ) - (b : ℤ)) ≤ q
  · simp only [hc, if_true]
    refine ⟨by rwa [zpow2_eq] at hc, ?_⟩
    have : (a : ℤ) - (b : ℤ) + 1 = (a : ℤ) + 1 - (b : ℤ) := by ring
    rw [this]
    exact hup
  · simp only [hc, if_false]
    rw [zpow2_eq] at hc
    push_neg at hc
    refine ⟨?_, ?_⟩
    · have : (a : ℤ) - (b : ℤ) - 1 = (a : ℤ) - (b : ℤ) - 1 := rfl
      exact hlo.le
    · have : (a : ℤ) - (b : ℤ) - 1 + 1 = (a : ℤ) - (b : ℤ) := by ring
      rw [this]
      exact hc

/-! ## Exactness of binary64 rounding on small integers -/

theorem qmul_intCast (a b : ℤ) : qmul (a : ℚ) (b : ℚ) = ((a * b : ℤ) : ℚ) := by
  rw [qmul_eq]; push_cast; ring

theorem qadd_intCast (a b : ℤ) : qadd (a : ℚ) (b : ℚ) = ((a + b : ℤ) : ℚ) := by
  rw [qadd_eq]; push_cast; ring

theorem qneg_intCast (a : ℤ) : qneg (a : ℚ) = ((-a : ℤ) : ℚ) := by
  rw [qneg_eq]; push_cast; ring

theorem roundPos_int (n : ℤ) (h1 : 0 < n) (h2 : n < 2 ^ 53) : roundPos (n : ℚ) = (n : ℚ) := by
  have hq : (0 : ℚ) < (n : ℚ) := by exact_mod_cast h1
  obtain ⟨hl, hh⟩ := flog2_spec (n : ℚ) hq
  set e := flog2 (n : ℚ) with he
  have he0 : 0 ≤ e := by
    by_contra hneg
    push_neg at hneg
    have h1q : (1 : ℚ) ≤ (n : ℚ) := by exact_mod_cast h1
    have : (2 : ℚ) ^ (e + 1) ≤ (2 : ℚ) ^ (0 : ℤ) := by
      apply zpow_le_zpow_right₀ one_le_two
      omega
    simp only [zpow_zero] at this
    linarith
  have he52 : e ≤ 52 := by
    by_contra hgt
    push_neg at hgt
    have h53 : (53 : ℤ) ≤ e := by omega
    have : (2 : ℚ) ^ (53 : ℤ) ≤ (2 : ℚ) ^ e := zpow_le_zpow_right₀ one_le_two h53
    have hn53 : (n : ℚ) < (2 : ℚ) ^ (53 : ℤ) := by
      have : ((2 ^ 53 : ℤ) : ℚ) = (2 : ℚ) ^ (53 : ℤ) := by push_cast; norm_num
      rw [← this]
      exact_mod_cast h2
    linarith
  have hk : (52 - e).toNat = (52 - e : ℤ).toNat := rfl
  have hknn : (0 : ℤ) ≤ 52 - e := by omega
  set m : ℤ := n * 2 ^ (52 - e).toNat with hm
  have hscaled : qmul (n : ℚ) (zpow2 (52 - e)) = (m : ℚ) := by
    rw [qmul_eq, zpow2_eq, hm]
    push_cast
    rw [← zpow_natCast (2 : ℚ) (52 - e).toNat, Int.toNat_of_nonneg hknn]
  rw [roundPos]
  simp only [← he, hscaled, ratfloor_eq, Int.floor_intCast, divInt_one_eq]
  have hfrac : qsub (m : ℚ) (m : ℚ) = 0 := by rw [qsub_eq]; ring
  rw [hfrac]
  have hhalf : Rat.divInt 1 2 = (1 : ℚ) / 2 := Rat.divInt_eq_div 1 2
  rw [if_pos (by rw [hhalf]; norm_num)]
  rw [qmul_eq, zpow2_eq, hm]
  push_cast
  rw [← zpow_natCast (2 : ℚ) (52 - e).toNat, Int.toNat_of_nonneg hknn, mul_assoc,
    ← zpow_add₀ (two_ne_zero)]
  simp

theorem roundD_int (n : ℤ) (h : n.natAbs < 2 ^ 53) : roundD (n : ℚ) = (n : ℚ) := by
  rcases lt_trichotomy n 0 with hneg | hzero | hpos
  · have hne : (n : ℚ) ≠ 0 := by exact_mod_cast hneg.ne
    have hnpos : ¬ (0 : ℚ) < (n : ℚ) := by
      push_neg
      exact_mod_cast hneg.le
    rw [roundD, if_neg hne, if_neg hnpos, qneg_intCast]
    have : roundPos ((-n : ℤ) : ℚ) = ((-n : ℤ) : ℚ) := roundPos_int (-n) (by omega) (by omega)
    rw [this, qneg_intCast]
    push_cast
    ring
  · subst hzero
    simp [roundD]
  · have hne : (n : ℚ) ≠ 0 := by exact_mod_cast hpos.ne'
    have hq : (0 : ℚ) < (n : ℚ) := by exact_mod_cast hpos
    rw [roundD, if_neg hne, if_pos hq]
    exact roundPos_int n hpos (by omega)

theorem toFixed2Pos_int (n : ℤ) : toFixed2Pos (n : ℚ) = (n : ℚ) := by
  have h100 : qmul (n : ℚ) (100 : ℚ) = ((n * 100 : ℤ) : ℚ) := by
    have : ((100 : ℤ) : ℚ) = (100 : ℚ) := by norm_num
    rw [← this, qmul_intCast]
  rw [toFixed2Pos]
  simp only [h100, ratfloor_eq, Int.floor_intCast, divInt_one_eq]
  have hfrac : qsub ((n * 100 : ℤ) : ℚ) ((n * 100 : ℤ) : ℚ) = 0 := by rw [qsub_eq]; ring
  rw [hfrac]
  have hhalf : Rat.divInt 1 2 = (1 : ℚ) / 2 := Rat.divInt_eq_div 1 2
  rw [if_pos (by rw [hhalf]; norm_num)]
  rw [Rat.divInt_eq_div]
  push_cast
  field_simp

theorem toFixed2_int (n : ℤ) : toFixed2 (n : ℚ) = (n : ℚ) := by
  rcases le_or_lt 0 n with hpos | hneg
  · have hnlt : ¬ ((n : ℚ) < 0) := by
      push_neg
      exact_mod_cast hpos
    rw [toFixed2, if_neg hnlt]
    exact toFixed2Pos_int n
  · have hlt : (n : ℚ) < 0 := by exact_mod_cast hneg
    rw [toFixed2, if_pos hlt, qneg_intCast]
    rw [toFixed2Pos_int (-n), qneg_intCast]
    push_cast
    ring

theorem toFixed2_zero : toFixed2 0 = 0 := by
  have h := toFixed2_int 0
  simpa using h

theorem isNumeric10x2_int (n : ℤ) (h : n.natAbs ≤ 99999999) : isNumeric10x2 (n : ℚ) = true := by
  have h100 : qmul (n : ℚ) (100 : ℚ) = ((n * 100 : ℤ) : ℚ) := by
    have : ((100 : ℤ) : ℚ) = (100 : ℚ) := by norm_num
    rw [← this, qmul_intCast]
  rw [isNumeric10x2, h100]
  simp only [Rat.den_intCast, Rat.num_intCast]
  have habs : (n * 100).natAbs ≤ 9999999999 := by
    rw [Int.natAbs_mul]
    calc n.natAbs * (100 : ℤ).natAbs ≤ 99999999 * 100 := by
          apply Nat.mul_le_mul h
          norm_num
    _ ≤ 9999999999 := by norm_num
  simp [habs]

/-! ## Structural lemmas about the inventory and the write phase -/

theorem forall₂_exists_left {α β : Type} {R : α → β → Prop} :
    ∀ {l1 : List α} {l2 : List β}, List.Forall₂ R l1 l2 → ∀ b ∈ l2, ∃ a ∈ l1, R a b := by
  intro l1 l2 h
  induction h with
  | nil => simp
  | cons hr _ ih =>
    intro b hb
    rcases List.mem_cons.mp hb with hb | hb
    · exact ⟨_, List.mem_cons_self _ _, hb ▸ hr⟩
    · obtain ⟨a, ha, hra⟩ := ih b hb
      exact ⟨a, List.mem_cons_of_mem _ ha, hra⟩

theorem tierSum_nil (tier : String) : tierSum [] tier = 0 := rfl

theorem tierSum_cons (li : OrderItem) (lines : List OrderItem) (tier : String) :
    tierSum (li :: lines) tier =
      (if li.ticketTier = tier then li.quantity else 0) + tierSum lines tier := by
  rw [tierSum, tierSum, List.filter_cons]
  by_cases h : li.ticketTier = tier
  · simp [h]
  · simp [h]

theorem phi_nil : phi [] = 0 := rfl

theorem phi_cons (t : Ticket) (ts : List Ticket) :
    phi (t :: ts) = t.priceUsd * (t.quantityAvailable : ℚ) + phi ts := by
  rw [phi, phi, List.map_cons, List.sum_cons]

theorem updateTickets_nil (tier : String) (q : ℤ) : updateTickets [] tier q = [] := rfl

theorem updateTickets_of_not_mem (ts : List Ticket) (tier : String) (q : ℤ)
    (h : ∀ t ∈ ts, t.tier ≠ tier) : updateTickets ts tier q = ts := by
  rw [updateTickets]
  conv_rhs => rw [← List.map_id ts]
  apply List.map_congr_left
  intro t ht
  have : (t.tier == tier) = false := beq_eq_false_iff_ne.mpr (h t ht)
  simp [this]

theorem findTicket_mem (ts : List Ticket) (tier : String) (t : Ticket)
    (h : findTicket ts tier = some t) : t ∈ ts :=
  List.mem_of_find?_eq_some h

theorem findTicket_tier (ts : List Ticket) (tier : String) (t : Ticket)
    (h : findTicket ts tier = some t) : t.tier = tier := by
  have := List.find?_some h
  exact beq_iff_eq.mp this

theorem updateTickets_cons (hd : Ticket) (tl : List Ticket) (tier : String) (q : ℤ) :
    updateTickets (hd :: tl) tier q =
      (if hd.tier == tier then { hd with quantityAvailable := hd.quantityAvailable - q } else hd)
        :: updateTickets tl tier q := rfl

theorem findTicket_updateTickets (ts : List Ticket) (tier : String) (q : ℤ) (tier2 : String) :
    findTicket (updateTickets ts tier q) tier2 =
      (findTicket ts tier2).map
        (fun t => if t.tier == tier then { t with quantityAvailable := t.quantityAvailable - q }
          else t) := by
  rw [findTicket, updateTickets, List.find?_map, findTicket]
  have hp : ((fun t : Ticket => t.tier == tier2) ∘ fun t =>
      if t.tier == tier then { t with quantityAvailable := t.quantityAvailable - q } else t) =
      (fun t : Ticket => t.tier == tier2) := by
    funext t
    by_cases h : t.tier == tier <;> simp [Function.comp, h]
  rw [hp]

theorem phi_updateTickets (ts : List Ticket) (tier : String) (q : ℤ) (t : Ticket)
    (hfind : findTicket ts tier = some t)
    (hdis : ts.Pairwise (fun a b => a.tier ≠ b.tier)) :
    phi (updateTickets ts tier q) = phi ts - t.priceUsd * (q : ℚ) := by
  induction ts with
  | nil => simp [findTicket] at hfind
  | cons hd tl ih =>
    rw [List.pairwise_cons] at hdis
    rw [findTicket, List.find?_cons] at hfind
    rw [updateTickets_cons]
    by_cases hhd : hd.tier = tier
    · have hbeq : (hd.tier == tier) = true := beq_iff_eq.mpr hhd
      rw [hbeq] at hfind
      have ht : t = hd := (Option.some.inj hfind).symm
      rw [if_pos hbeq]
      have htl : updateTickets tl tier q = tl :=
        updateTickets_of_not_mem tl tier q
          (fun x hx hxe => (hdis.1 x hx) (by rw [hhd, hxe]))
      rw [htl, phi_cons, phi_cons, ht]
      push_cast
      ring
    · have hbeq : (hd.tier == tier) = false := beq_eq_false_iff_ne.mpr hhd
      rw [hbeq] at hfind
      rw [if_neg (by simp [hbeq])]
      rw [phi_cons, phi_cons, ih hfind hdis.2]
      ring

/-! ## Facts following from the shape invariant -/

theorem shape_destruct (ts : List Ticket) (h : List.Forall₂ TicketShape seedTickets ts) :
    ∃ a1 a2 a3 : ℤ,
      ts = [⟨"VIP", 100, a1, 10⟩, ⟨"FRONT_ROW", 50, a2, 50⟩, ⟨"GA", 10, a3, 200⟩] ∧
      int4Min ≤ a1 ∧ a1 ≤ int4Max ∧ int4Min ≤ a2 ∧ a2 ≤ int4Max ∧
      int4Min ≤ a3 ∧ a3 ≤ int4Max := by
  rw [seedTickets] at h
  obtain _ | ⟨h1, h⟩ := h
  obtain _ | ⟨h2, h⟩ := h
  obtain _ | ⟨h3, h⟩ := h
  obtain _ | _ := h
  rename_i t1 t2 t3
  obtain ⟨e1, e2, e3, e4⟩ := h1
  obtain ⟨f1, f2, f3, f4⟩ := h2
  obtain ⟨g1, g2, g3, g4⟩ := h3
  refine ⟨t1.quantityAvailable, t2.quantityAvailable, t3.quantityAvailable, ?_, e4.1, e4.2,
    f4.1, f4.2, g4.1, g4.2⟩
  obtain ⟨u1, u2, u3, u4⟩ := t1
  obtain ⟨v1, v2, v3, v4⟩ := t2
  obtain ⟨w1, w2, w3, w4⟩ := t3
  simp only at e1 e2 e3 f1 f2 f3 g1 g2 g3
  simp [e1, e2, e3, f1, f2, f3, g1, g2, g3]

theorem shape_tiers_distinct (ts : List Ticket) (h : List.Forall₂ TicketShape seedTickets ts) :
    ts.Pairwise (fun a b => a.tier ≠ b.tier) := by
  obtain ⟨a1, a2, a3, hts, _⟩ := shape_destruct ts h
  subst hts
  refine List.Pairwise.cons ?_ (List.Pairwise.cons ?_ (List.Pairwise.cons ?_ List.Pairwise.nil))
  · intro x hx
    simp only [List.mem_cons, List.not_mem_nil, or_false] at hx
    rcases hx with rfl | rfl <;> simp
  · intro x hx
    simp only [List.mem_cons, List.not_mem_nil, or_false] at hx
    subst hx
    simp
  · intro x hx
    simp at hx

theorem shape_price (ts : List Ticket) (h : List.Forall₂ TicketShape seedTickets ts)
    (t : Ticket) (ht : t ∈ ts) :
    ∃ p : ℤ, t.priceUsd = (p : ℚ) ∧ 0 < p ∧ p ≤ 100 := by
  obtain ⟨a1, a2, a3, hts, _⟩ := shape_destruct ts h
  subst hts
  simp only [List.mem_cons, List.not_mem_nil, or_false] at ht
  rcases ht with rfl | rfl | rfl
  · exact ⟨100, by norm_num, by norm_num, le_rfl⟩
  · exact ⟨50, by norm_num, by norm_num, by norm_num⟩
  · exact ⟨10, by norm_num, by norm_num, by norm_num⟩

theorem shape_avail_int4 (ts : List Ticket) (h : List.Forall₂ TicketShape seedTickets ts)
    (t : Ticket) (ht : t ∈ ts) : availInt4 t := by
  obtain ⟨a1, a2, a3, hts, h1, h2, h3, h4, h5, h6⟩ := shape_destruct ts h
  subst hts
  simp only [List.mem_cons, List.not_mem_nil, or_false] at ht
  rcases ht with rfl | rfl | rfl
  · exact ⟨h1, h2⟩
  · exact ⟨h3, h4⟩
  · exact ⟨h5, h6⟩

theorem phi_shape (ts : List Ticket) (h : List.Forall₂ TicketShape seedTickets ts) :
    ∃ p : ℤ, phi ts = (p : ℚ) ∧ |p| ≤ 160 * 2 ^ 31 := by
  obtain ⟨a1, a2, a3, hts, h1, h2, h3, h4, h5, h6⟩ := shape_destruct ts h
  subst hts
  refine ⟨100 * a1 + 50 * a2 + 10 * a3, ?_, ?_⟩
  · rw [phi]
    push_cast
    simp
    ring
  · rw [int4Min, int4Max] at *
    rw [abs_le]
    omega

theorem forall₂_imp_of_mem {α β : Type} {R S : α → β → Prop} :
    ∀ {l1 : List α} {l2 : List β}, List.Forall₂ R l1 l2 →
      (∀ a b, a ∈ l1 → b ∈ l2 → R a b → S a b) → List.Forall₂ S l1 l2 := by
  intro l1 l2 h
  induction h with
  | nil => intro _; exact List.Forall₂.nil
  | cons hr _ ih =>
    intro himp
    exact List.Forall₂.cons
      (himp _ _ (List.mem_cons_self _ _) (List.mem_cons_self _ _) hr)
      (ih fun a b ha hb hr2 =>
        himp a b (List.mem_cons_of_mem _ ha) (List.mem_cons_of_mem _ hb) hr2)

theorem shape_updateTickets (ts : List Ticket) (tier : String) (q : ℤ)
    (h : List.Forall₂ TicketShape seedTickets ts)
    (hguard : availUpdateOk ts tier q = true) :
    List.Forall₂ TicketShape seedTickets (updateTickets ts tier q) := by
  rw [updateTickets, List.forall₂_map_right_iff]
  rw [availUpdateOk, List.all_eq_true] at hguard
  apply forall₂_imp_of_mem h
  intro s t hs ht hst
  obtain ⟨p1, p2, p3, p4⟩ := hst
  by_cases hc : t.tier == tier
  · rw [if_pos hc]
    refine ⟨p1, p2, p3, ?_, ?_⟩
    · have := hguard t ht
      simp only [bne, hc, Bool.not_true, Bool.false_or, Bool.and_eq_true,
        decide_eq_true_eq] at this
      exact this.1
    · have := hguard t ht
      simp only [bne, hc, Bool.not_true, Bool.false_or, Bool.and_eq_true,
        decide_eq_true_eq] at this
      exact this.2
  · rw [if_neg hc]
    exact ⟨p1, p2, p3, p4⟩

/-! ## Inversion of the write phase -/

theorem floatFold_nil (acc : ℚ) : floatFold acc [] = acc := rfl

theorem floatFold_cons (acc : ℚ) (it : PendingItem) (rest : List PendingItem) :
    floatFold acc (it :: rest) =
      floatFold (fadd acc (fmul (roundD it.priceAtPurchase) it.quantity)) rest := rfl

theorem exactSumP_nil : exactSumP [] = 0 := rfl

theorem exactSumP_cons (it : PendingItem) (rest : List PendingItem) :
    exactSumP (it :: rest) = it.quantity * it.priceAtPurchase + exactSumP rest := by
  rw [exactSumP, exactSumP, List.map_cons, List.sum_cons]

/-- What a pending item must satisfy for its `INSERT` to succeed. -/
theorem lineInsertOk_dest (it : PendingItem) (h : lineInsertOk it = true) :
    it.quantity = (it.quantity.num : ℚ) ∧ int4Min ≤ it.quantity.num ∧
      it.quantity.num ≤ int4Max ∧ it.tier.length ≤ 50 := by
  rw [lineInsertOk, isInt4] at h
  simp only [Bool.and_eq_true, beq_iff_eq, decide_eq_true_eq] at h
  exact ⟨(Rat.coe_int_num_of_den_eq_one h.1.1.1.1).symm, h.1.1.1.2, h.1.1.2, h.1.2⟩

theorem writeItems_ok (oid : ℕ) :
    ∀ (pend : List PendingItem) (ts ts2 : List Ticket) (lines : List OrderItem),
      writeItems oid ts pend = some (ts2, lines) →
      List.Forall₂ (fun (it : PendingItem) (li : OrderItem) =>
          li.orderId = oid ∧ li.ticketTier = it.tier ∧ li.priceAtPurchase = it.priceAtPurchase ∧
          li.quantity = it.quantity.num ∧ it.quantity = (it.quantity.num : ℚ) ∧
          int4Min ≤ it.quantity.num ∧ it.quantity.num ≤ int4Max) pend lines ∧
      List.Forall₂ (fun (a b : Ticket) =>
          b.tier = a.tier ∧ b.priceUsd = a.priceUsd ∧ b.totalQuantity = a.totalQuantity ∧
          b.quantityAvailable = a.quantityAvailable - tierSum lines a.tier) ts ts2 := by
  intro pend
  induction pend with
  | nil =>
    intro ts ts2 lines h
    rw [writeItems] at h
    simp only [Option.some.injEq, Prod.mk.injEq] at h
    obtain ⟨rfl, rfl⟩ := h
    refine ⟨List.Forall₂.nil, ?_⟩
    rw [List.forall₂_same]
    intro t _
    rw [tierSum_nil]
    exact ⟨rfl, rfl, rfl, by ring⟩
  | cons it rest ih =>
    intro ts ts2 lines h
    rw [writeItems] at h
    by_cases h1 : lineInsertOk it = true
    swap
    · rw [if_neg h1] at h; simp at h
    rw [if_pos h1] at h
    by_cases h2 : availUpdateOk ts it.tier it.quantity.num = true
    swap
    · rw [if_neg h2] at h; simp at h
    rw [if_pos h2] at h
    rcases hrec : writeItems oid (updateTickets ts it.tier it.quantity.num) rest with _ | ⟨ts3, lines3⟩
    · rw [hrec] at h; simp at h
    · rw [hrec] at h
      simp only [Option.some.injEq, Prod.mk.injEq] at h
      obtain ⟨rfl, rfl⟩ := h
      obtain ⟨hq, hqmin, hqmax, _⟩ := lineInsertOk_dest it h1
      obtain ⟨ihl, iht⟩ := ih (updateTickets ts it.tier it.quantity.num) ts3 lines3 hrec
      constructor
      · exact List.Forall₂.cons ⟨rfl, rfl, rfl, rfl, hq, hqmin, hqmax⟩ ihl
      · rw [updateTickets, List.forall₂_map_left_iff] at iht
        apply List.Forall₂.imp ?_ iht
        intro a b hab
        by_cases hc : (a.tier == it.tier) = true
        · rw [if_pos hc] at hab
          dsimp only at hab
          obtain ⟨b1, b2, b3, b4⟩ := hab
          refine ⟨b1, b2, b3, ?_⟩
          rw [b4, tierSum_cons]
          dsimp only
          rw [if_pos (beq_iff_eq.mp hc).symm]
          ring
        · rw [if_neg hc] at hab
          obtain ⟨b1, b2, b3, b4⟩ := hab
          refine ⟨b1, b2, b3, ?_⟩
          have hne : a.tier ≠ it.tier := fun hcon => hc (beq_iff_eq.mpr hcon)
          rw [b4, tierSum_cons]
          dsimp only
          rw [if_neg (fun hcon => hne hcon.symm)]
          ring

theorem writeFloatExact (oid : ℕ) :
    ∀ (pend : List PendingItem) (ts ts2 : List Ticket) (lines : List OrderItem) (m : ℤ),
      writeItems oid ts pend = some (ts2, lines) →
      List.Forall₂ TicketShape seedTickets ts →
      (∀ it ∈ pend, ∃ t, findTicket ts it.tier = some t ∧ it.priceAtPurchase = t.priceUsd) →
      |(m : ℚ) + phi ts| ≤ 2 ^ 50 →
      ∃ k : ℤ, floatFold ((m : ℤ) : ℚ) pend = ((m + k : ℤ) : ℚ) ∧ (k : ℚ) = exactSumP pend := by
  intro pend
  induction pend with
  | nil =>
    intro ts ts2 lines m _ _ _ _
    refine ⟨0, ?_, by rw [exactSumP_nil]; norm_num⟩
    rw [floatFold_nil]
    norm_num
  | cons it rest ih =>
    intro ts ts2 lines m h hshape hpend hbound
    rw [writeItems] at h
    by_cases h1 : lineInsertOk it = true
    swap
    · rw [if_neg h1] at h; simp at h
    rw [if_pos h1] at h
    by_cases h2 : availUpdateOk ts it.tier it.quantity.num = true
    swap
    · rw [if_neg h2] at h; simp at h
    rw [if_pos h2] at h
    rcases hrec : writeItems oid (updateTickets ts it.tier it.quantity.num) rest with _ | ⟨ts3, lines3⟩
    · rw [hrec] at h; simp at h
    obtain ⟨hq, hqmin, hqmax, _⟩ := lineInsertOk_dest it h1
    set q : ℤ := it.quantity.num with hqdef
    obtain ⟨trow, hfind, hprice⟩ := hpend it (List.mem_cons_self _ _)
    obtain ⟨p, hp, hp0, hp100⟩ :=
      shape_price ts hshape trow (findTicket_mem _ _ _ hfind)
    obtain ⟨pv, hpv, hpvb⟩ := phi_shape ts hshape
    have hbz : |m + pv| ≤ 2 ^ 50 := by
      rw [hpv] at hbound
      have : |((m + pv : ℤ) : ℚ)| ≤ ((2 ^ 50 : ℤ) : ℚ) := by push_cast; exact hbound
      rw [← Int.cast_abs] at this
      exact_mod_cast this
    have hpq : |p * q| ≤ 100 * 2 ^ 31 := by
      rw [abs_mul]
      apply mul_le_mul
      · rw [abs_le]; omega
      · rw [abs_le, int4Min, int4Max] at *; omega
      · exact abs_nonneg q
      · norm_num
    have hprod : fmul (roundD it.priceAtPurchase) it.quantity = ((p * q : ℤ) : ℚ) := by
      rw [fmul, hprice, hp, hq]
      rw [roundD_int p (by omega)]
      rw [qmul_intCast]
      rw [roundD_int (p * q) ?hb]
      case hb =>
        have := abs_le.mp hpq
        omega
    have haccb : (m + p * q).natAbs < 2 ^ 53 := by
      have h1b := abs_le.mp hbz
      have h2b := abs_le.mp hpq
      have h3b : |pv| ≤ 160 * 2 ^ 31 := hpvb
      have h4b := abs_le.mp h3b
      omega
    have hacc : fadd ((m : ℤ) : ℚ) ((p * q : ℤ) : ℚ) = ((m + p * q : ℤ) : ℚ) := by
      rw [fadd, qadd_intCast, roundD_int _ haccb]
    have hshape' : List.Forall₂ TicketShape seedTickets
        (updateTickets ts it.tier q) := shape_updateTickets ts it.tier q hshape h2
    have hpend' : ∀ it2 ∈ rest, ∃ t, findTicket (updateTickets ts it.tier q) it2.tier = some t ∧
        it2.priceAtPurchase = t.priceUsd := by
      intro it2 hit2
      obtain ⟨t2, hfind2, hprice2⟩ := hpend it2 (List.mem_cons_of_mem _ hit2)
      refine ⟨if t2.tier == it.tier then
        { t2 with quantityAvailable := t2.quantityAvailable - q } else t2, ?_, ?_⟩
      · rw [findTicket_updateTickets, hfind2, Option.map_some']
      · by_cases hc : t2.tier == it.tier
        · rw [if_pos hc]; exact hprice2
        · rw [if_neg hc]; exact hprice2
    have hphi' : phi (updateTickets ts it.tier q) = ((pv - p * q : ℤ) : ℚ) := by
      rw [phi_updateTickets ts it.tier q trow hfind (shape_tiers_distinct ts hshape)]
      rw [hpv, hp]
      push_cast
      ring
    have hbound' : |((m + p * q : ℤ) : ℚ) + phi (updateTickets ts it.tier q)| ≤ 2 ^ 50 := by
      rw [hphi']
      have heq : ((m + p * q : ℤ) : ℚ) + ((pv - p * q : ℤ) : ℚ) = ((m + pv : ℤ) : ℚ) := by
        push_cast; ring
      rw [heq, ← Int.cast_abs]
      exact_mod_cast hbz
    obtain ⟨k, hk1, hk2⟩ := ih (updateTickets ts it.tier q) ts3 lines3 (m + p * q) hrec
      hshape' hpend' hbound'
    refine ⟨p * q + k, ?_, ?_⟩
    · rw [floatFold_cons, hprod, hacc, hk1]
      congr 1
      ring
    · rw [exactSumP_cons, ← hk2, hq, hprice, hp]
      push_cast
      ring

/-! ## Inversion of the lock-and-validate loop -/

theorem lockAndValidate_ok (ts : List Ticket) :
    ∀ (cart : List CartItem) (acc tot : ℚ) (pend : List PendingItem) (locks : List String),
      lockAndValidate ts cart acc = .ok (tot, pend, locks) →
      tot = floatFold acc pend ∧ locks = cart.map (fun item => item.tier) ∧
      List.Forall₂ (fun (item : CartItem) (it : PendingItem) =>
        it.tier = item.tier ∧ it.quantity = item.quantity ∧
        ∃ t, findTicket ts item.tier = some t ∧ it.priceAtPurchase = t.priceUsd ∧
          ¬ (Rat.divInt t.quantityAvailable 1 < item.quantity)) cart pend := by
  intro cart
  induction cart with
  | nil =>
    intro acc tot pend locks h
    rw [lockAndValidate] at h
    simp only [Except.ok.injEq, Prod.mk.injEq] at h
    obtain ⟨rfl, rfl, rfl⟩ := h
    exact ⟨rfl, rfl, List.Forall₂.nil⟩
  | cons item rest ih =>
    intro acc tot pend locks h
    rw [lockAndValidate] at h
    rcases hf : findTicket ts item.tier with _ | t
    · rw [hf] at h; simp at h
    rw [hf] at h
    dsimp only at h
    by_cases hlt : Rat.divInt t.quantityAvailable 1 < item.quantity
    · rw [if_pos hlt] at h; simp at h
    rw [if_neg hlt] at h
    rcases hrec : lockAndValidate ts rest (fadd acc (fmul (roundD t.priceUsd) item.quantity))
      with ⟨r, ls⟩ | ⟨tot2, pend2, ls2⟩
    · rw [hrec] at h; simp at h
    rw [hrec] at h
    dsimp only at h
    simp only [Except.ok.injEq, Prod.mk.injEq] at h
    obtain ⟨rfl, rfl, rfl⟩ := h
    obtain ⟨ih1, ih2, ih3⟩ := ih _ _ _ _ hrec
    refine ⟨by rw [floatFold_cons]; exact ih1, ?_, ?_⟩
    · rw [List.map_cons, ← ih2, findTicket_tier ts item.tier t hf]
    · exact List.Forall₂.cons ⟨rfl, rfl, t, hf, rfl, hlt⟩ ih3

theorem lockAndValidate_total (ts : List Ticket) :
    ∀ (cart : List CartItem) (acc : ℚ),
      (∀ item ∈ cart, ∃ t, findTicket ts item.tier = some t ∧
        ¬ (Rat.divInt t.quantityAvailable 1 < item.quantity)) →
      ∃ tot pend locks, lockAndValidate ts cart acc = .ok (tot, pend, locks) := by
  intro cart
  induction cart with
  | nil =>
    intro acc _
    exact ⟨acc, [], [], rfl⟩
  | cons item rest ih =>
    intro acc hok
    obtain ⟨t, hf, hlt⟩ := hok item (List.mem_cons_self _ _)
    obtain ⟨tot2, pend2, ls2, hrec⟩ :=
      ih (fadd acc (fmul (roundD t.priceUsd) item.quantity))
        (fun item2 h2 => hok item2 (List.mem_cons_of_mem _ h2))
    refine ⟨tot2, ⟨item.tier, item.quantity, t.priceUsd⟩ :: pend2, t.tier :: ls2, ?_⟩
    rw [lockAndValidate, hf]
    dsimp only
    rw [if_neg hlt, hrec]

/-! ## Branch analysis of the handler -/

theorem isSuccess_false_iff (r : BookResult) :
    isSuccess r = false ↔ ∀ oid tot, r ≠ .success oid tot := by
  cases r <;> simp [isSuccess]

/-- Every run of the handler either fails (leaving the database untouched,
with the status drawn from the status table) or commits, in which case all
the guards of the transaction held and the produced state is explicit. -/
theorem book_master (env : Env) (db : DB) (req : BookingRequest) :
    ((book env db req).db = db ∧
      (book env db req).status = toStatus (book env db req).result ∧
      isSuccess (book env db req).result = false) ∨
    (∃ total pend locks ts2 lines,
      lockAndValidate db.tickets req.cartItems 0 = .ok (total, pend, locks) ∧
      simulatePayment env req.userId total = true ∧
      req.userId.length ≤ 255 ∧ isNumeric10x2 (toFixed2 total) = true ∧
      writeItems db.nextOrderId db.tickets pend = some (ts2, lines) ∧
      book env db req = ⟨.success db.nextOrderId (toFixed2 total), 201,
        ⟨ts2, db.orders ++ [⟨db.nextOrderId, req.userId, toFixed2 total, "PAID"⟩],
          db.orderItems ++ lines, db.nextOrderId + 1⟩, locks⟩) := by
  by_cases hv : req.userId = "" ∨ req.cartItems = []
  · left
    rw [book, if_pos hv]
    exact ⟨rfl, rfl, rfl⟩
  by_cases hff0 : env.fault = true
  · left
    rw [book, if_neg hv, if_pos hff0]
    exact ⟨rfl, rfl, rfl⟩
  have hff : ¬ (env.fault = true) := hff0
  rcases hLV : lockAndValidate db.tickets req.cartItems 0 with ⟨err, ls⟩ | ⟨total, pend, locks⟩
  · rcases err with tier | ⟨tier, qq, av⟩
    · left
      rw [book, if_neg hv, if_neg hff, hLV]
      exact ⟨rfl, rfl, rfl⟩
    · left
      rw [book, if_neg hv, if_neg hff, hLV]
      exact ⟨rfl, rfl, rfl⟩
  by_cases hpay : simulatePayment env req.userId total = true
  swap
  · left
    rw [book, if_neg hv, if_neg hff, hLV]
    dsimp only
    rw [if_neg hpay]
    exact ⟨rfl, rfl, rfl⟩
  by_cases hnum : req.userId.length ≤ 255 ∧ isNumeric10x2 (toFixed2 total) = true
  swap
  · left
    rw [book, if_neg hv, if_neg hff, hLV]
    dsimp only
    rw [if_pos hpay, if_neg hnum]
    exact ⟨rfl, rfl, rfl⟩
  rcases hw : writeItems db.nextOrderId db.tickets pend with _ | ⟨ts2, lines⟩
  · left
    rw [book, if_neg hv, if_neg hff, hLV]
    dsimp only
    rw [if_pos hpay, if_pos hnum, hw]
    exact ⟨rfl, rfl, rfl⟩
  · right
    refine ⟨total, pend, locks, ts2, lines, rfl, hpay, hnum.1, hnum.2, hw, ?_⟩
    rw [book, if_neg hv, if_neg hff, hLV]
    dsimp only
    rw [if_pos hpay, if_pos hnum, hw]

/-! ## Maintenance of the state invariant -/

theorem updateTickets_availInt4 (ts : List Ticket) (tier : String) (q : ℤ)
    (h : availUpdateOk ts tier q = true) (hts : ∀ t ∈ ts, availInt4 t) :
    ∀ t2 ∈ updateTickets ts tier q, availInt4 t2 := by
  intro t2 ht2
  rw [updateTickets, List.mem_map] at ht2
  obtain ⟨t, ht, rfl⟩ := ht2
  rw [availUpdateOk, List.all_eq_true] at h
  by_cases hc : (t.tier == tier) = true
  · rw [if_pos hc]
    have := h t ht
    simp only [bne, hc, Bool.not_true, Bool.false_or, Bool.and_eq_true,
      decide_eq_true_eq] at this
    exact ⟨this.1, this.2⟩
  · rw [if_neg hc]
    exact hts t ht

theorem writeItems_availInt4 (oid : ℕ) :
    ∀ (pend : List PendingItem) (ts ts2 : List Ticket) (lines : List OrderItem),
      writeItems oid ts pend = some (ts2, lines) →
      (∀ t ∈ ts, availInt4 t) → ∀ t2 ∈ ts2, availInt4 t2 := by
  intro pend
  induction pend with
  | nil =>
    intro ts ts2 lines h hts
    rw [writeItems] at h
    simp only [Option.some.injEq, Prod.mk.injEq] at h
    obtain ⟨rfl, rfl⟩ := h
    exact hts
  | cons it rest ih =>
    intro ts ts2 lines h hts
    rw [writeItems] at h
    by_cases h1 : lineInsertOk it = true
    swap
    · rw [if_neg h1] at h; simp at h
    rw [if_pos h1] at h
    by_cases h2 : availUpdateOk ts it.tier it.quantity.num = true
    swap
    · rw [if_neg h2] at h; simp at h
    rw [if_pos h2] at h
    rcases hrec : writeItems oid (updateTickets ts it.tier it.quantity.num) rest
      with _ | ⟨ts3, lines3⟩
    · rw [hrec] at h; simp at h
    rw [hrec] at h
    simp only [Option.some.injEq, Prod.mk.injEq] at h
    obtain ⟨rfl, rfl⟩ := h
    exact ih _ _ _ hrec (updateTickets_availInt4 _ _ _ h2 hts)

theorem forall₂_trans {α β γ : Type} {R : α → β → Prop} {S : β → γ → Prop} {T : α → γ → Prop}
    (hT : ∀ a b c, R a b → S b c → T a c) :
    ∀ {l1 : List α} {l2 : List β} {l3 : List γ},
      List.Forall₂ R l1 l2 → List.Forall₂ S l2 l3 → List.Forall₂ T l1 l3 := by
  intro l1 l2 l3 h
  induction h generalizing l3 with
  | nil =>
    intro h2
    cases h2
    exact List.Forall₂.nil
  | cons hr _ ih =>
    intro h2
    cases h2 with
    | cons hs hrest2 => exact List.Forall₂.cons (hT _ _ _ hr hs) (ih hrest2)

theorem paidQtySum_commit (tks tks2 : List Ticket) (ords : List Order)
    (items : List OrderItem) (nid n2 : ℕ) (o : Order) (lines : List OrderItem) (tier : String)
    (ho : o.status = "PAID")
    (hlines : ∀ li ∈ lines, li.orderId = o.id)
    (href : ∀ li ∈ items, ∃ o2 ∈ ords, o2.id = li.orderId ∧ o2.status = "PAID") :
    paidQtySum ⟨tks2, ords ++ [o], items ++ lines, n2⟩ tier =
      paidQtySum ⟨tks, ords, items, nid⟩ tier + tierSum lines tier := by
  rw [paidQtySum, paidQtySum, tierSum]
  dsimp only
  rw [List.filter_append, List.map_append, List.sum_append]
  congr 1
  · congr 1
    congr 1
    apply List.filter_congr
    intro li hli
    by_cases hc : (li.ticketTier == tier) = true
    · rw [hc]
      simp only [Bool.true_and]
      obtain ⟨o2, ho2, hid, hst⟩ := href li hli
      have h1 : ords.any (fun o3 => o3.id == li.orderId && o3.status == "PAID") = true := by
        rw [List.any_eq_true]
        exact ⟨o2, ho2, by simp [hid, hst]⟩
      have h2 : (ords ++ [o]).any (fun o3 => o3.id == li.orderId && o3.status == "PAID") = true := by
        rw [List.any_append, h1]
        simp
      rw [h1, h2]
    · have hc2 : (li.ticketTier == tier) = false := by
        revert hc; cases li.ticketTier == tier <;> simp
      rw [hc2]
      simp
  · congr 1
    congr 1
    apply List.filter_congr
    intro li hli
    have hid := hlines li hli
    have hany : (ords ++ [o]).any (fun o3 => o3.id == li.orderId && o3.status == "PAID") = true := by
      rw [List.any_append]
      have : [o].any (fun o3 => o3.id == li.orderId && o3.status == "PAID") = true := by
        simp [hid, ho]
      rw [this]
      simp
    rw [hany, Bool.and_true]

theorem lineSum_commit_old (tks tks2 : List Ticket) (ords ords2 : List Order)
    (items lines : List OrderItem) (nid n2 oid : ℕ)
    (hnew : ∀ li ∈ lines, li.orderId ≠ oid) :
    lineSum ⟨tks2, ords2, items ++ lines, n2⟩ oid = lineSum ⟨tks, ords, items, nid⟩ oid := by
  rw [lineSum, lineSum]
  dsimp only
  rw [List.filter_append]
  have : (lines.filter fun li => li.orderId == oid) = [] := by
    rw [List.filter_eq_nil_iff]
    intro li hli
    simp [hnew li hli]
  rw [this]
  simp

theorem lineSum_commit_new (tks2 : List Ticket) (ords2 : List Order)
    (items lines : List OrderItem) (n2 oid : ℕ)
    (hold : ∀ li ∈ items, li.orderId ≠ oid) (hnew : ∀ li ∈ lines, li.orderId = oid) :
    lineSum ⟨tks2, ords2, items ++ lines, n2⟩ oid =
      (lines.map fun li => (li.quantity : ℚ) * li.priceAtPurchase).sum := by
  rw [lineSum]
  dsimp only
  rw [List.filter_append]
  have h1 : (items.filter fun li => li.orderId == oid) = [] := by
    rw [List.filter_eq_nil_iff]
    intro li hli
    simp [hold li hli]
  have h2 : (lines.filter fun li => li.orderId == oid) = lines := by
    rw [List.filter_eq_self]
    intro li hli
    simp [hnew li hli]
  rw [h1, h2]
  simp

theorem exactSumP_eq_lines (oid : ℕ) (pend : List PendingItem) (lines : List OrderItem)
    (h : List.Forall₂ (fun (it : PendingItem) (li : OrderItem) =>
        li.orderId = oid ∧ li.ticketTier = it.tier ∧ li.priceAtPurchase = it.priceAtPurchase ∧
        li.quantity = it.quantity.num ∧ it.quantity = (it.quantity.num : ℚ) ∧
        int4Min ≤ it.quantity.num ∧ it.quantity.num ≤ int4Max) pend lines) :
    exactSumP pend = (lines.map fun li => (li.quantity : ℚ) * li.priceAtPurchase).sum := by
  induction h with
  | nil => rfl
  | cons hr _ ih =>
    rw [exactSumP_cons, List.map_cons, List.sum_cons, ih]
    obtain ⟨_, _, hp, hq, hqc, _, _⟩ := hr
    rw [hqc, hp, hq]

theorem inv_seed : Inv seedDB := by
  refine ⟨?_, ?_, ?_, ?_⟩
  · exact List.Forall₂.cons ⟨rfl, rfl, rfl, by decide, by decide⟩
      (List.Forall₂.cons ⟨rfl, rfl, rfl, by decide, by decide⟩
        (List.Forall₂.cons ⟨rfl, rfl, rfl, by decide, by decide⟩ List.Forall₂.nil))
  · intro t ht
    simp only [seedDB, seedTickets, List.mem_cons, List.not_mem_nil, or_false] at ht
    rcases ht with rfl | rfl | rfl <;> decide
  · intro o ho
    simp [seedDB] at ho
  · intro li hli
    simp [seedDB] at hli

theorem inv_book (env : Env) (db : DB) (req : BookingRequest) (hinv : Inv db) :
    Inv (book env db req).db := by
  rcases book_master env db req with ⟨hdb, _, _⟩ |
    ⟨total, pend, locks, ts2, lines, hLV, hpay2, hlen, hnum, hw, heq⟩
  · rw [hdb]; exact hinv
  rw [heq]
  obtain ⟨htot, hlocks, hF2⟩ := lockAndValidate_ok db.tickets req.cartItems 0 total pend locks hLV
  have hpendPrices : ∀ it ∈ pend, ∃ t, findTicket db.tickets it.tier = some t ∧
      it.priceAtPurchase = t.priceUsd := by
    intro it hit
    obtain ⟨item, _, h1, _, t, hf, hp, _⟩ := forall₂_exists_left hF2 it hit
    exact ⟨t, by rw [h1]; exact hf, hp⟩
  obtain ⟨hlinesRel, hticketsRel⟩ := writeItems_ok db.nextOrderId pend db.tickets ts2 lines hw
  have hint4 : ∀ t2 ∈ ts2, availInt4 t2 :=
    writeItems_availInt4 db.nextOrderId pend db.tickets ts2 lines hw
      (fun t ht => shape_avail_int4 db.tickets hinv.shape t ht)
  have hlinesId : ∀ li ∈ lines, li.orderId = db.nextOrderId := by
    intro li hli
    obtain ⟨it, _, h1, _⟩ := forall₂_exists_left hlinesRel li hli
    exact h1
  obtain ⟨pv, hpv, hpvb⟩ := phi_shape db.tickets hinv.shape
  have hbd : |((0 : ℤ) : ℚ) + phi db.tickets| ≤ 2 ^ 50 := by
    rw [hpv, Int.cast_zero, zero_add, ← Int.cast_abs]
    have h1 : ((|pv| : ℤ) : ℚ) ≤ ((160 * 2 ^ 31 : ℤ) : ℚ) := by exact_mod_cast hpvb
    calc ((|pv| : ℤ) : ℚ) ≤ ((160 * 2 ^ 31 : ℤ) : ℚ) := h1
      _ ≤ 2 ^ 50 := by norm_num
  obtain ⟨k, hk1, hk2⟩ := writeFloatExact db.nextOrderId pend db.tickets ts2 lines 0 hw
    hinv.shape hpendPrices hbd
  have htotk : total = (k : ℚ) := by
    have h0 : (0 : ℚ) = ((0 : ℤ) : ℚ) := by norm_num
    rw [htot, h0, hk1]
    norm_num
  have hstored : toFixed2 total = (k : ℚ) := by
    rw [htotk, toFixed2_int]
  refine ⟨?_, ?_, ?_, ?_⟩
  · have hcomp : List.Forall₂ (fun (s t2 : Ticket) =>
        t2.tier = s.tier ∧ t2.priceUsd = s.priceUsd ∧ t2.totalQuantity = s.totalQuantity)
        seedTickets ts2 :=
      forall₂_trans (fun s t t2 hst htt2 =>
        ⟨htt2.1.trans hst.1, htt2.2.1.trans hst.2.1, htt2.2.2.1.trans hst.2.2.1⟩)
        hinv.shape hticketsRel
    exact forall₂_imp_of_mem hcomp
      (fun s t2 _ ht2 h3 => ⟨h3.1, h3.2.1, h3.2.2, hint4 t2 ht2⟩)
  · intro t2 ht2
    dsimp only at ht2 ⊢
    obtain ⟨t, ht, htt, _, httq, hta⟩ := forall₂_exists_left hticketsRel t2 ht2
    rw [paidQtySum_commit db.tickets ts2 db.orders db.orderItems db.nextOrderId
      (db.nextOrderId + 1) ⟨db.nextOrderId, req.userId, toFixed2 total, "PAID"⟩ lines t2.tier
      rfl hlinesId (fun li hli => (hinv.linesRef li hli).2)]
    have hdbeta : (⟨db.tickets, db.orders, db.orderItems, db.nextOrderId⟩ : DB) = db := rfl
    rw [hdbeta]
    have hcons := hinv.conserve t ht
    rw [htt, httq, hta]
    omega
  · intro o2 ho2
    dsimp only at ho2 ⊢
    rw [List.mem_append] at ho2
    rcases ho2 with ho2 | ho2
    · obtain ⟨hid, hst, hsum⟩ := hinv.ordersPaid o2 ho2
      refine ⟨by omega, hst, ?_⟩
      rw [lineSum_commit_old db.tickets ts2 db.orders
        (db.orders ++ [(⟨db.nextOrderId, req.userId, toFixed2 total, "PAID"⟩ : Order)])
        db.orderItems lines db.nextOrderId (db.nextOrderId + 1) o2.id
        (fun li hli => by rw [hlinesId li hli]; omega)]
      have hdbeta : (⟨db.tickets, db.orders, db.orderItems, db.nextOrderId⟩ : DB) = db := rfl
      rw [hdbeta]
      exact hsum
    · rw [List.mem_singleton] at ho2
      subst ho2
      refine ⟨Nat.lt_succ_self _, rfl, ?_⟩
      dsimp only
      rw [lineSum_commit_new ts2
        (db.orders ++ [(⟨db.nextOrderId, req.userId, toFixed2 total, "PAID"⟩ : Order)])
        db.orderItems lines (db.nextOrderId + 1) db.nextOrderId
        (fun li hli => by have := (hinv.linesRef li hli).1; omega) hlinesId]
      rw [hstored, hk2, exactSumP_eq_lines db.nextOrderId pend lines hlinesRel]
  · intro li hli
    dsimp only at hli ⊢
    rw [List.mem_append] at hli
    rcases hli with hli | hli
    · obtain ⟨hid, o2, ho2, hido, hst⟩ := hinv.linesRef li hli
      exact ⟨by omega, o2, List.mem_append_left _ ho2, hido, hst⟩
    · refine ⟨by rw [hlinesId li hli]; omega,
        ⟨db.nextOrderId, req.userId, toFixed2 total, "PAID"⟩,
        List.mem_append_right _ (List.mem_singleton.mpr rfl), ?_, rfl⟩
      rw [hlinesId li hli]

theorem inv_reachable (db : DB) (h : Reachable db) : Inv db := by
  induction h with
  | seed => exact inv_seed
  | step env req _ ih => exact inv_book env _ req ih

/-! ## Further inversion helpers for the claims -/

theorem shape_tier_len (ts : List Ticket) (h : List.Forall₂ TicketShape seedTickets ts)
    (t : Ticket) (ht : t ∈ ts) : t.tier.length ≤ 50 := by
  obtain ⟨s, hs, hst⟩ := forall₂_exists_left h t ht
  rw [hst.1]
  simp only [seedTickets, List.mem_cons, List.not_mem_nil, or_false] at hs
  rcases hs with rfl | rfl | rfl <;> decide

theorem findTicket_unique (ts : List Ticket) (h : List.Forall₂ TicketShape seedTickets ts)
    (tier : String) (t : Ticket) (hf : findTicket ts tier = some t) :
    ∀ t2 ∈ ts, t2.tier = tier → t2 = t := by
  obtain ⟨a1, a2, a3, hts, _⟩ := shape_destruct ts h
  subst hts
  have hmem := findTicket_mem _ _ _ hf
  have htier := findTicket_tier _ _ _ hf
  intro t2 ht2 htt2
  simp only [List.mem_cons, List.not_mem_nil, or_false] at ht2 hmem
  rcases ht2 with rfl | rfl | rfl <;> rcases hmem with rfl | rfl | rfl <;>
    first
      | rfl
      | (rw [← htt2] at htier; simp at htier)

theorem book_paymentFailed (env : Env) (db : DB) (req : BookingRequest)
    (h : (book env db req).result = .paymentFailed) :
    ∃ total, simulatePayment env req.userId total = false := by
  rw [book] at h
  by_cases hv : req.userId = "" ∨ req.cartItems = []
  · rw [if_pos hv] at h
    exact absurd h (by simp)
  rw [if_neg hv] at h
  by_cases hf : env.fault = true
  · rw [if_pos hf] at h
    exact absurd h (by simp)
  rw [if_neg hf] at h
  rcases hLV : lockAndValidate db.tickets req.cartItems 0 with ⟨e, ls⟩ | ⟨tot, pend, locks⟩
  · rcases e with t | ⟨t, q, a⟩ <;> rw [hLV] at h <;> dsimp only at h <;>
      exact absurd h (by simp)
  rw [hLV] at h
  dsimp only at h
  by_cases hpay : simulatePayment env req.userId tot = true
  · rw [if_pos hpay] at h
    by_cases hnum : req.userId.length ≤ 255 ∧ isNumeric10x2 (toFixed2 tot) = true
    · rw [if_pos hnum] at h
      rcases hwI : writeItems db.nextOrderId db.tickets pend with _ | ⟨ts2, lines⟩ <;>
        rw [hwI] at h <;> dsimp only at h <;> exact absurd h (by simp)
    · rw [if_neg hnum] at h
      exact absurd h (by simp)
  · refine ⟨tot, ?_⟩
    revert hpay
    cases simulatePayment env req.userId tot <;> simp

/-! ## The specification's claims -/

/-- C1.  The spec claims `0 ≤ quantity_available ≤ total_quantity` in every
reachable state.  Refuted: a cart holding two lines for the same tier is
validated line by line against the same pre-decrement availability, so the
booking `[VIP×2, VIP×9]` against the seeded 10 VIP tickets commits and drives
`quantity_available` of VIP to `-1 < 0`. -/
theorem C1_availability_bug :
    Reachable (book envOk seedDB ⟨"test-user-1", [⟨"VIP", 2⟩, ⟨"VIP", 9⟩]⟩).db ∧
    isSuccess (book envOk seedDB ⟨"test-user-1", [⟨"VIP", 2⟩, ⟨"VIP", 9⟩]⟩).result = true ∧
    ∃ t ∈ (book envOk seedDB ⟨"test-user-1", [⟨"VIP", 2⟩, ⟨"VIP", 9⟩]⟩).db.tickets,
      t.quantityAvailable < 0 := by
  refine ⟨Reachable.step envOk _ Reachable.seed, ?_, ?_⟩
  · decide
  · decide

/-- C2.  Every failed `book` call (invalid input, unknown tier, insufficient
stock, payment declined, or an unexpected fault) leaves the database exactly
as it was: same orders, same order lines, same inventory (ROLLBACK). -/
theorem C2_failure_frame (env : Env) (db : DB) (req : BookingRequest)
    (h : isSuccess (book env db req).result = false) :
    (book env db req).db = db := by
  rcases book_master env db req with ⟨hdb, _, _⟩ |
    ⟨total, pend, locks, ts2, lines, _, _, _, _, _, heq⟩
  · exact hdb
  · rw [heq] at h
    simp [isSuccess] at h

theorem C2_failure_frame_witness :
    isSuccess (book envOk seedDB ⟨"test-user-2", [⟨"VIP", 11⟩]⟩).result = false ∧
    (book envOk seedDB ⟨"test-user-2", [⟨"VIP", 11⟩]⟩).db = seedDB :=
  ⟨by decide, C2_failure_frame envOk seedDB ⟨"test-user-2", [⟨"VIP", 11⟩]⟩ (by decide)⟩

/-- C3 counterexample.  The handler performs no sorting: the cart
`[GA, FRONT_ROW]` locks `GA` first, the cart `[FRONT_ROW, GA]` locks
`FRONT_ROW` first, so two carts over the same tier set acquire the locks in
different orders. -/
theorem C3_no_sorting :
    (book envOk seedDB ⟨"test-user-3", [⟨"GA", 1⟩, ⟨"FRONT_ROW", 1⟩]⟩).locks
      = ["GA", "FRONT_ROW"] ∧
    (book envOk seedDB ⟨"test-user-3", [⟨"FRONT_ROW", 1⟩, ⟨"GA", 1⟩]⟩).locks
      = ["FRONT_ROW", "GA"] ∧
    (["GA", "FRONT_ROW"] : List String) ≠ ["FRONT_ROW", "GA"] := by
  refine ⟨?_, ?_, ?_⟩ <;> decide

/-- C3 (amended).  Lock acquisition order is the cart's request order, not a
sorted order: a successful call locks exactly the requested tiers in request
order. -/
theorem C3_locks_request_order (env : Env) (db : DB) (req : BookingRequest)
    (h : isSuccess (book env db req).result = true) :
    (book env db req).locks = req.cartItems.map (fun item => item.tier) := by
  rcases book_master env db req with ⟨_, _, hf⟩ |
    ⟨total, pend, locks, ts2, lines, hLV, _, _, _, _, heq⟩
  · rw [h] at hf
    exact Bool.noConfusion hf
  · obtain ⟨_, hlocks, _⟩ := lockAndValidate_ok db.tickets req.cartItems 0 total pend locks hLV
    rw [heq]
    exact hlocks

theorem C3_locks_request_order_witness :
    isSuccess (book envOk seedDB ⟨"test-user-3w", [⟨"GA", 2⟩, ⟨"FRONT_ROW", 1⟩]⟩).result
      = true ∧
    (book envOk seedDB ⟨"test-user-3w", [⟨"GA", 2⟩, ⟨"FRONT_ROW", 1⟩]⟩).locks
      = ([⟨"GA", 2⟩, ⟨"FRONT_ROW", 1⟩] : List CartItem).map (fun item => item.tier) :=
  ⟨by decide,
   C3_locks_request_order envOk seedDB ⟨"test-user-3w", [⟨"GA", 2⟩, ⟨"FRONT_ROW", 1⟩]⟩
     (by decide)⟩

/-- C4.  Conservation: in every reachable state, `total_quantity -
quantity_available` of each tier equals the summed `quantity` of the order
lines of that tier that belong to PAID orders. -/
theorem C4_conservation (db : DB) (h : Reachable db) :
    ∀ t ∈ db.tickets, t.totalQuantity - t.quantityAvailable = paidQtySum db t.tier :=
  (inv_reachable db h).conserve

theorem C4_conservation_witness :
    Reachable (book envOk seedDB ⟨"test-user-4", [⟨"VIP", 3⟩]⟩).db ∧
    ∀ t ∈ (book envOk seedDB ⟨"test-user-4", [⟨"VIP", 3⟩]⟩).db.tickets,
      t.totalQuantity - t.quantityAvailable
        = paidQtySum (book envOk seedDB ⟨"test-user-4", [⟨"VIP", 3⟩]⟩).db t.tier :=
  ⟨Reachable.step envOk _ Reachable.seed,
   C4_conservation _ (Reachable.step envOk _ Reachable.seed)⟩

/-- C5.  Price snapshot: a catalog price edit (`setPrice`) touches neither the
orders nor the order lines of any reachable state, and every committed
order's stored total equals the sum of `quantity × price_at_purchase` over
its lines both before and after the edit. -/
theorem C5_price_snapshot (db : DB) (h : Reachable db) (tier : String) (p : ℚ) :
    (setPrice db tier p).orders = db.orders ∧
    (setPrice db tier p).orderItems = db.orderItems ∧
    ∀ o ∈ db.orders, o.totalAmount = lineSum db o.id ∧
      o.totalAmount = lineSum (setPrice db tier p) o.id := by
  refine ⟨rfl, rfl, fun o ho => ?_⟩
  have h1 := ((inv_reachable db h).ordersPaid o ho).2.2
  exact ⟨h1, h1⟩

theorem C5_price_snapshot_witness :
    Reachable (book envOk seedDB ⟨"test-user-5", [⟨"VIP", 2⟩]⟩).db ∧
    ((setPrice (book envOk seedDB ⟨"test-user-5", [⟨"VIP", 2⟩]⟩).db "VIP" 999).orders
        = (book envOk seedDB ⟨"test-user-5", [⟨"VIP", 2⟩]⟩).db.orders ∧
      (setPrice (book envOk seedDB ⟨"test-user-5", [⟨"VIP", 2⟩]⟩).db "VIP" 999).orderItems
        = (book envOk seedDB ⟨"test-user-5", [⟨"VIP", 2⟩]⟩).db.orderItems ∧
      ∀ o ∈ (book envOk seedDB ⟨"test-user-5", [⟨"VIP", 2⟩]⟩).db.orders,
        o.totalAmount = lineSum (book envOk seedDB ⟨"test-user-5", [⟨"VIP", 2⟩]⟩).db o.id ∧
        o.totalAmount
          = lineSum (setPrice (book envOk seedDB ⟨"test-user-5", [⟨"VIP", 2⟩]⟩).db "VIP" 999)
              o.id) :=
  ⟨Reachable.step envOk _ Reachable.seed,
   C5_price_snapshot _ (Reachable.step envOk _ Reachable.seed) "VIP" 999⟩

/-- C6 counterexample.  The handler validates only `!userId` and a non-empty
cart array; it never checks `quantity > 0`: a cart line with quantity `0`
passes validation and commits an order, changing the database. -/
theorem C6_no_qty_check :
    isSuccess (book envOk seedDB ⟨"test-user-6", [⟨"VIP", 0⟩]⟩).result = true ∧
    (book envOk seedDB ⟨"test-user-6", [⟨"VIP", 0⟩]⟩).db ≠ seedDB := by
  refine ⟨?_, ?_⟩ <;> decide

/-- C6 (amended).  The request validation rejects exactly an empty `userId`
or an empty cart, as `InvalidInput` with status 400, before the transaction
opens and with no side effects; line quantities are not validated. -/
theorem C6_validation (env : Env) (db : DB) (req : BookingRequest)
    (h : req.userId = "" ∨ req.cartItems = []) :
    book env db req = ⟨.invalidInput, 400, db, []⟩ := by
  rw [book, if_pos h]

theorem C6_validation_witness :
    ((⟨"", [⟨"VIP", 1⟩]⟩ : BookingRequest).userId = ""
        ∨ (⟨"", [⟨"VIP", 1⟩]⟩ : BookingRequest).cartItems = []) ∧
    book envOk seedDB ⟨"", [⟨"VIP", 1⟩]⟩ = ⟨.invalidInput, 400, seedDB, []⟩ :=
  ⟨Or.inl rfl, C6_validation envOk seedDB ⟨"", [⟨"VIP", 1⟩]⟩ (Or.inl rfl)⟩

/-- C7 counterexample.  The running total is accumulated in binary64, not in
decimal arithmetic: for the valid cart `[GA×0.01, GA×0.02]` the float total
the handler computes differs from the exact sum `Σ qty × unitPrice` over the
cart lines. -/
theorem C7_float_total :
    floatTotalOf seedDB
        [⟨"GA", roundD (Rat.divInt 1 100)⟩, ⟨"GA", roundD (Rat.divInt 2 100)⟩]
      ≠ some (specExactTotal seedTickets
        [⟨"GA", roundD (Rat.divInt 1 100)⟩, ⟨"GA", roundD (Rat.divInt 2 100)⟩]) := by
  rw [specExactTotal]
  simp only [List.map_cons, List.map_nil, List.sum_cons, List.sum_nil]
  rw [← qadd_eq, ← qadd_eq, ← qmul_eq, ← qmul_eq]
  decide

/-- C7 (amended).  The total is accumulated in binary64 floating point, but
for every booking committed from a reachable state the quantities are int4
integers and the catalog prices integral dollars, so every rounding step is
exact: the stored total of the new order equals the exact sum
`Σ quantity × price_at_purchase` over its lines. -/
theorem C7_total_exact (env : Env) (db : DB) (req : BookingRequest)
    (h : Reachable db) (oid : ℕ) (tot : ℚ)
    (hs : (book env db req).result = .success oid tot) :
    tot = lineSum (book env db req).db oid := by
  rcases book_master env db req with ⟨_, _, hno⟩ |
    ⟨total, pend, locks, ts2, lines, _, _, _, _, _, heq⟩
  · rw [hs] at hno
    simp [isSuccess] at hno
  · have hinv2 := inv_reachable _ (Reachable.step env req h)
    rw [heq] at hs hinv2 ⊢
    dsimp only at hs
    injection hs with h1 h2
    subst h1
    subst h2
    have hmem : (⟨db.nextOrderId, req.userId, toFixed2 total, "PAID"⟩ : Order) ∈
        (db.orders ++ [⟨db.nextOrderId, req.userId, toFixed2 total, "PAID"⟩]) :=
      List.mem_append_right _ (List.mem_singleton.mpr rfl)
    exact (hinv2.ordersPaid _ hmem).2.2

theorem C7_total_exact_witness :
    Reachable seedDB ∧
    (book envOk seedDB ⟨"test-user-7", [⟨"VIP", 2⟩]⟩).result = .success 0 (200 : ℚ) ∧
    (200 : ℚ) = lineSum (book envOk seedDB ⟨"test-user-7", [⟨"VIP", 2⟩]⟩).db 0 :=
  ⟨Reachable.seed, by decide,
   C7_total_exact envOk seedDB ⟨"test-user-7", [⟨"VIP", 2⟩]⟩ Reachable.seed 0 200 (by decide)⟩

/-- C8 counterexample.  A declined payment is answered with status 400 — the
same client-error status as invalid input and unknown tier — not with a
service-error (5xx) status, so payment failure does not map to a distinct
service-error category. -/
theorem C8_payment_status :
    (book envFail seedDB ⟨"alice", [⟨"GA", 1⟩]⟩).result = .paymentFailed ∧
    (book envFail seedDB ⟨"alice", [⟨"GA", 1⟩]⟩).status = 400 ∧
    (book envOk seedDB ⟨"", []⟩).status = 400 ∧
    ¬ (500 ≤ (book envFail seedDB ⟨"alice", [⟨"GA", 1⟩]⟩).status) := by
  refine ⟨?_, ?_, ?_, ?_⟩ <;> decide

/-- C8 (amended).  The status table of the handler: 201 on success, 400 for
invalid input, unknown tier and declined payment, 409 for insufficient
stock, 500 for infrastructure failure — payment failure shares the
client-error status 400 instead of a distinct service-error category. -/
theorem C8_status_table (env : Env) (db : DB) (req : BookingRequest) :
    (book env db req).status = toStatus (book env db req).result := by
  rcases book_master env db req with ⟨_, h, _⟩ |
    ⟨total, pend, locks, ts2, lines, _, _, _, _, _, heq⟩
  · exact h
  · rw [heq]
    rfl

/-- C10.  The payment gate is deterministic for test users: any `userId`
with character prefix `"test-user"` makes `simulatePayment` return `true`
for every amount and any environment, so no `book` call by such a user ever
produces the payment-declined result. -/
theorem C10_test_user_payment (env : Env) (userId : String) (amount : ℚ) (db : DB)
    (cart : List CartItem)
    (h : "test-user".data.isPrefixOf userId.data = true) :
    simulatePayment env userId amount = true ∧
    (book env db ⟨userId, cart⟩).result ≠ .paymentFailed := by
  have hsp : ∀ a : ℚ, simulatePayment env userId a = true := fun a => by
    rw [simulatePayment, if_pos h]
  refine ⟨hsp amount, fun hc => ?_⟩
  obtain ⟨tot, hfalse⟩ := book_paymentFailed env db ⟨userId, cart⟩ hc
  dsimp only at hfalse
  rw [hsp tot] at hfalse
  exact Bool.noConfusion hfalse

/-- C9.  The per-line availability check compares each cart line against the
`quantity_available` read when that line is locked; decrements happen only in
the write phase.  Hence a cart with two lines for the same tier is validated
twice against the same pre-decrement availability, and (for a test user, no
fault, and write-guard-compatible integer quantities) the call succeeds
whenever each individual line's quantity is at most that availability — even
when their sum exceeds it — and the tier ends at `available - (q1 + q2)`. -/
theorem C9_same_tier_read_check (env : Env) (db : DB) (userId tier : String)
    (q1 q2 : ℤ) (t : Ticket)
    (hreach : Reachable db)
    (hff : env.fault = false)
    (hpre : "test-user".data.isPrefixOf userId.data = true)
    (hulen : userId.length ≤ 255)
    (hfind : findTicket db.tickets tier = some t)
    (h1 : q1 ≤ t.quantityAvailable) (h2 : q2 ≤ t.quantityAvailable)
    (hq1 : 0 ≤ q1) (hq2 : 0 ≤ q2) (hsum : q1 + q2 ≤ 999999)
    (hlow : int4Min ≤ t.quantityAvailable - q1 - q2) :
    isSuccess (book env db ⟨userId, [⟨tier, (q1 : ℚ)⟩, ⟨tier, (q2 : ℚ)⟩]⟩).result = true ∧
    ∃ t2 ∈ (book env db ⟨userId, [⟨tier, (q1 : ℚ)⟩, ⟨tier, (q2 : ℚ)⟩]⟩).db.tickets,
      t2.tier = tier ∧ t2.quantityAvailable = t.quantityAvailable - (q1 + q2) := by
  have hinv := inv_reachable db hreach
  have hshape := hinv.shape
  have hmem := findTicket_mem db.tickets tier t hfind
  have htier := findTicket_tier db.tickets tier t hfind
  obtain ⟨p, hp, hp0, hp100⟩ := shape_price db.tickets hshape t hmem
  have hA := shape_avail_int4 db.tickets hshape t hmem
  have htl : tier.length ≤ 50 := htier ▸ shape_tier_len db.tickets hshape t hmem
  have hdup : ∀ t2 ∈ db.tickets, t2.tier = tier → t2 = t :=
    findTicket_unique db.tickets hshape tier t hfind
  have hune : userId ≠ "" := by
    intro he
    rw [he] at hpre
    exact absurd hpre (by decide)
  have hv : ¬ (userId = "" ∨ ([⟨tier, (q1 : ℚ)⟩, ⟨tier, (q2 : ℚ)⟩] : List CartItem) = []) := by
    rintro (hc | hc)
    · exact hune hc
    · exact List.noConfusion hc
  have hff2 : ¬ (env.fault = true) := by
    rw [hff]
    exact Bool.false_ne_true
  have hq1max : q1 ≤ int4Max := le_trans h1 hA.2
  have hq2max : q2 ≤ int4Max := le_trans h2 hA.2
  have hpq1 : 0 ≤ p * q1 ∧ p * q1 ≤ 100 * int4Max :=
    ⟨mul_nonneg hp0.le hq1, mul_le_mul hp100 hq1max hq1 (by norm_num)⟩
  have hpq2 : 0 ≤ p * q2 ∧ p * q2 ≤ 100 * int4Max :=
    ⟨mul_nonneg hp0.le hq2, mul_le_mul hp100 hq2max hq2 (by norm_num)⟩
  have hroundp : roundD t.priceUsd = (p : ℚ) := by
    rw [hp]
    exact roundD_int p (by omega)
  have hm1 : fmul (roundD t.priceUsd) ((q1 : ℤ) : ℚ) = ((p * q1 : ℤ) : ℚ) := by
    rw [hroundp, fmul, qmul_intCast]
    exact roundD_int (p * q1) (by rw [int4Max] at hpq1; omega)
  have hm2 : fmul (roundD t.priceUsd) ((q2 : ℤ) : ℚ) = ((p * q2 : ℤ) : ℚ) := by
    rw [hroundp, fmul, qmul_intCast]
    exact roundD_int (p * q2) (by rw [int4Max] at hpq2; omega)
  have hz : (0 : ℚ) = ((0 : ℤ) : ℚ) := by norm_num
  have ha1 : fadd 0 ((p * q1 : ℤ) : ℚ) = ((p * q1 : ℤ) : ℚ) := by
    rw [fadd, hz, qadd_intCast, zero_add]
    exact roundD_int (p * q1) (by rw [int4Max] at hpq1; omega)
  have ha2 : fadd ((p * q1 : ℤ) : ℚ) ((p * q2 : ℤ) : ℚ) = ((p * q1 + p * q2 : ℤ) : ℚ) := by
    rw [fadd, qadd_intCast]
    exact roundD_int (p * q1 + p * q2) (by rw [int4Max] at hpq1 hpq2; omega)
  have hnl1 : ¬ (Rat.divInt t.quantityAvailable 1 < ((q1 : ℤ) : ℚ)) := by
    rw [divInt_one_eq]
    exact not_lt.mpr (by exact_mod_cast h1)
  have hnl2 : ¬ (Rat.divInt t.quantityAvailable 1 < ((q2 : ℤ) : ℚ)) := by
    rw [divInt_one_eq]
    exact not_lt.mpr (by exact_mod_cast h2)
  have hLV1 : lockAndValidate db.tickets [⟨tier, (q2 : ℚ)⟩] ((p * q1 : ℤ) : ℚ) =
      .ok (((p * q1 + p * q2 : ℤ) : ℚ), [⟨tier, (q2 : ℚ), t.priceUsd⟩], [t.tier]) := by
    rw [lockAndValidate]
    dsimp only
    rw [hfind]
    dsimp only
    rw [if_neg hnl2, hm2, ha2, lockAndValidate]
  have hLV : lockAndValidate db.tickets [⟨tier, (q1 : ℚ)⟩, ⟨tier, (q2 : ℚ)⟩] 0 =
      .ok (((p * q1 + p * q2 : ℤ) : ℚ),
        [⟨tier, (q1 : ℚ), t.priceUsd⟩, ⟨tier, (q2 : ℚ), t.priceUsd⟩], [t.tier, t.tier]) := by
    rw [lockAndValidate]
    dsimp only
    rw [hfind]
    dsimp only
    rw [if_neg hnl1, hm1, ha1, hLV1]
  have hnumP : isNumeric10x2 t.priceUsd = true := by
    rw [hp]
    exact isNumeric10x2_int p (by omega)
  have hli1 : lineInsertOk ⟨tier, (q1 : ℚ), t.priceUsd⟩ = true := by
    rw [lineInsertOk, isInt4]
    dsimp only
    rw [hnumP]
    simp only [Rat.num_intCast, Rat.den_intCast, beq_self_eq_true, Bool.true_and,
      Bool.and_true, Bool.and_eq_true, decide_eq_true_eq]
    refine ⟨⟨?_, hq1max⟩, htl⟩
    rw [int4Min]
    omega
  have hli2 : lineInsertOk ⟨tier, (q2 : ℚ), t.priceUsd⟩ = true := by
    rw [lineInsertOk, isInt4]
    dsimp only
    rw [hnumP]
    simp only [Rat.num_intCast, Rat.den_intCast, beq_self_eq_true, Bool.true_and,
      Bool.and_true, Bool.and_eq_true, decide_eq_true_eq]
    refine ⟨⟨?_, hq2max⟩, htl⟩
    rw [int4Min]
    omega
  have hAu1 : availUpdateOk db.tickets tier q1 = true := by
    rw [availUpdateOk, List.all_eq_true]
    intro t2 ht2
    by_cases hc : t2.tier = tier
    · have he : t2 = t := hdup t2 ht2 hc
      subst he
      rw [Bool.or_eq_true]
      right
      rw [Bool.and_eq_true, decide_eq_true_eq, decide_eq_true_eq]
      have hAm := hA.2
      rw [int4Min] at hlow
      rw [int4Max] at hAm
      rw [int4Min, int4Max]
      constructor <;> omega
    · rw [Bool.or_eq_true]
      left
      rw [bne_iff_ne]
      exact hc
  have hAu2 : availUpdateOk (updateTickets db.tickets tier q1) tier q2 = true := by
    rw [availUpdateOk, List.all_eq_true]
    intro t3 ht3
    rw [updateTickets, List.mem_map] at ht3
    obtain ⟨t2, ht2, rfl⟩ := ht3
    by_cases hc : t2.tier = tier
    · have he : t2 = t := hdup t2 ht2 hc
      subst he
      rw [if_pos (beq_iff_eq.mpr hc)]
      rw [Bool.or_eq_true]
      right
      rw [Bool.and_eq_true, decide_eq_true_eq, decide_eq_true_eq]
      dsimp only
      have hAm := hA.2
      rw [int4Min] at hlow
      rw [int4Max] at hAm
      rw [int4Min, int4Max]
      constructor <;> omega
    · rw [if_neg (fun hcon => hc (beq_iff_eq.mp hcon))]
      rw [Bool.or_eq_true]
      left
      rw [bne_iff_ne]
      exact hc
  have hw : writeItems db.nextOrderId db.tickets
      [⟨tier, (q1 : ℚ), t.priceUsd⟩, ⟨tier, (q2 : ℚ), t.priceUsd⟩] =
      some (updateTickets (updateTickets db.tickets tier q1) tier q2,
        [⟨db.nextOrderId, tier, q1, t.priceUsd⟩, ⟨db.nextOrderId, tier, q2, t.priceUsd⟩]) := by
    rw [writeItems]
    dsimp only
    rw [if_pos hli1, Rat.num_intCast, if_pos hAu1, writeItems]
    dsimp only
    rw [if_pos hli2, Rat.num_intCast, if_pos hAu2, writeItems]
  have hpay : simulatePayment env userId ((p * q1 + p * q2 : ℤ) : ℚ) = true := by
    rw [simulatePayment, if_pos hpre]
  have hg : userId.length ≤ 255 ∧
      isNumeric10x2 (toFixed2 ((p * q1 + p * q2 : ℤ) : ℚ)) = true := by
    refine ⟨hulen, ?_⟩
    rw [toFixed2_int]
    apply isNumeric10x2_int
    have hb1 : p * q1 + p * q2 = p * (q1 + q2) := by ring
    have hb2 : p * (q1 + q2) ≤ 100 * 999999 := mul_le_mul hp100 hsum (by omega) (by norm_num)
    have hb3 : 0 ≤ p * (q1 + q2) := mul_nonneg hp0.le (by omega)
    omega
  have hr1 : ({ t with quantityAvailable := t.quantityAvailable - q1 } : Ticket) ∈
      updateTickets db.tickets tier q1 := by
    rw [updateTickets, List.mem_map]
    exact ⟨t, hmem, by rw [if_pos (beq_iff_eq.mpr htier)]⟩
  have hr2 : ({ t with quantityAvailable := t.quantityAvailable - q1 - q2 } : Ticket) ∈
      updateTickets (updateTickets db.tickets tier q1) tier q2 := by
    rw [updateTickets, List.mem_map]
    refine ⟨_, hr1, ?_⟩
    rw [if_pos (beq_iff_eq.mpr
      (show ({ t with quantityAvailable := t.quantityAvailable - q1 } : Ticket).tier = tier
        from htier))]
  rw [book]
  dsimp only
  rw [if_neg hv, if_neg hff2, hLV]
  dsimp only
  rw [if_pos hpay, if_pos hg, hw]
  refine ⟨rfl, ⟨{ t with quantityAvailable := t.quantityAvailable - q1 - q2 }, hr2,
    htier, ?_⟩⟩
  exact sub_sub t.quantityAvailable q1 q2

theorem C9_same_tier_read_check_witness :
    (Reachable seedDB ∧
      envOk.fault = false ∧
      "test-user".data.isPrefixOf "test-user-9".data = true ∧
      "test-user-9".length ≤ 255 ∧
      findTicket seedDB.tickets "GA" = some ⟨"GA", 10, 200, 200⟩ ∧
      (150 : ℤ) ≤ (⟨"GA", 10, 200, 200⟩ : Ticket).quantityAvailable ∧
      (150 : ℤ) ≤ (⟨"GA", 10, 200, 200⟩ : Ticket).quantityAvailable ∧
      (0 : ℤ) ≤ 150 ∧ (0 : ℤ) ≤ 150 ∧ (150 : ℤ) + 150 ≤ 999999 ∧
      int4Min ≤ (⟨"GA", 10, 200, 200⟩ : Ticket).quantityAvailable - 150 - 150) ∧
    (isSuccess (book envOk seedDB
        ⟨"test-user-9", [⟨"GA", ((150 : ℤ) : ℚ)⟩, ⟨"GA", ((150 : ℤ) : ℚ)⟩]⟩).result = true ∧
      ∃ t2 ∈ (book envOk seedDB
          ⟨"test-user-9", [⟨"GA", ((150 : ℤ) : ℚ)⟩, ⟨"GA", ((150 : ℤ) : ℚ)⟩]⟩).db.tickets,
        t2.tier = "GA" ∧
        t2.quantityAvailable
          = (⟨"GA", 10, 200, 200⟩ : Ticket).quantityAvailable - (150 + 150)) :=
  ⟨⟨Reachable.seed, rfl, by decide, by decide, by decide, by decide, by decide,
    by decide, by decide, by decide, by decide⟩,
   C9_same_tier_read_check envOk seedDB "test-user-9" "GA" 150 150 ⟨"GA", 10, 200, 200⟩
     Reachable.seed rfl (by decide) (by decide) (by decide) (by decide) (by decide)
     (by decide) (by decide) (by decide) (by decide)⟩

theorem C10_test_user_payment_witness :
    "test-user".data.isPrefixOf "test-user-x".data = true ∧
    (simulatePayment envFail "test-user-x" 5 = true ∧
      (book envFail seedDB ⟨"test-user-x", [⟨"GA", 1⟩]⟩).result ≠ .paymentFailed) :=
  ⟨by decide,
   C10_test_user_payment envFail "test-user-x" 5 seedDB [⟨"GA", 1⟩] (by decide)⟩

end Booking
